import Mathlib

/-!
Atomics builtins of `src/builtins/builtins-sharedarraybuffer.cc`.

A shallow embedding of `ValidateSharedTypedArray`,
`ConvertTaggedAtomicIndexToWord32`, `ValidateAtomicIndex` and of the builtins
`AtomicsLoad`, `AtomicsStore` and `AtomicsExchange`, together with the machine
operations of the code-stub assembler they are written in.

Conventions.
* A 32-bit machine word is a `Nat` below `2^32`; the signed reading is `Int32`.
* A pointer-sized word is a `Nat` below `2^64` (a 64-bit target, where a Smi
  carries a 32-bit payload).
* A float64 is its three IEEE-754 bit fields.
* Shared memory is a map from byte address to byte; multi-byte cells are
  little-endian.
* Every builtin is run by one agent at a time, so an atomic access is a plain
  read or write of the cell.
-/

set_option exponentiation.threshold 4096

namespace V8

/-! ## IEEE-754 binary64 values -/

/-- The bit fields of an IEEE-754 binary64: sign bit, 11-bit biased exponent and
52-bit fraction. -/
structure Float64 where
  sign : Bool
  expo : Nat
  mant : Nat
  expo_lt : expo < 2048
  mant_lt : mant < 4503599627370496
deriving DecidableEq

namespace Float64

/-- Not-a-number: exponent all ones, fraction non-zero. -/
def isNaN (x : Float64) : Bool := x.expo == 2047 && x.mant != 0

/-- Finite: neither an infinity nor a NaN. -/
def isFinite (x : Float64) : Bool := decide (x.expo < 2047)

/-- Positive or negative zero. -/
def isZero (x : Float64) : Bool := x.expo == 0 && x.mant == 0

/-- The integer significand: the fraction, with the hidden bit for a normal number. -/
def significand (x : Float64) : Nat :=
  if x.expo = 0 then x.mant else 4503599627370496 + x.mant

/-- The power of two by which the significand is scaled, counted from the
smallest subnormal `2^-1074`. -/
def shift (x : Float64) : Nat := if x.expo = 0 then 0 else x.expo - 1

/-- The magnitude of a finite `x` in units of `2^-1074`: `|x| * 2^1074`. -/
def scaledMag (x : Float64) : Nat := x.significand * 2 ^ x.shift

/-- The value of a finite `x` in units of `2^-1074`: `x * 2^1074`. -/
def scaled (x : Float64) : Int := if x.sign then -(x.scaledMag : Int) else (x.scaledMag : Int)

/-- The magnitude of a finite `x` rounded toward zero. -/
def truncMag (x : Float64) : Nat := x.scaledMag / 2 ^ 1074

/-- A finite `x` rounded toward zero, as a mathematical integer. -/
def trunc (x : Float64) : Int := if x.sign then -(x.truncMag : Int) else (x.truncMag : Int)

/-- The float `x` is finite and its value is exactly the integer `n`. -/
def IsInt (x : Float64) (n : Int) : Prop :=
  x.expo < 2047 ∧ x.scaled = n * ((2 ^ 1074 : Nat) : Int)

instance (x : Float64) (n : Int) : Decidable (x.IsInt n) := by
  unfold IsInt; exact inferInstance

/-- The float `x` is finite and equal to its own truncation. -/
def IsIntegral (x : Float64) : Prop := x.IsInt x.trunc

instance (x : Float64) : Decidable x.IsIntegral := by
  unfold IsIntegral; exact inferInstance

/-- The float `x` is not negative: its value is at least zero (so `-0` counts,
a NaN does not). -/
def IsNonNegative (x : Float64) : Prop := x.isNaN = false ∧ (x.sign = false ∨ x.isZero = true)

instance (x : Float64) : Decidable x.IsNonNegative := by
  unfold IsNonNegative; exact inferInstance

/-- Doubling a significand until the hidden bit is set, lowering the exponent
by one each time. -/
def normalize : Nat → Nat → Nat → Nat × Nat
  | 0, m, e => (m, e)
  | fuel + 1, m, e =>
    if m < 4503599627370496 then normalize fuel (2 * m) (e - 1) else (m, e)

/-- The float of sign `sign` and magnitude `a`, exact for `a < 2^53`. -/
def ofMagnitude (sign : Bool) (a : Nat) : Float64 :=
  if a = 0 then ⟨sign, 0, 0, by decide, by decide⟩
  else
    let r := normalize 52 a 1075
    ⟨sign, r.2 % 2048, r.1 % 4503599627370496,
      Nat.mod_lt _ (by decide), Nat.mod_lt _ (by decide)⟩

end Float64

/-! ## Machine operations of the code-stub assembler -/

/-- The signed reading of a 32-bit word. -/
def Int32 (w : Nat) : Int :=
  if w % 4294967296 < 2147483648 then (w % 4294967296 : Nat)
  else ((w % 4294967296 : Nat) : Int) - 4294967296

/-- The 32-bit word of an integer: its residue modulo `2^32`. -/
def Word32 (n : Int) : Nat := (n % 4294967296).toNat

/-- Modelled from the spec: `Uint32LessThan` of the code-stub assembler, which is not
in the source file: unsigned comparison of two 32-bit words. -/
def Uint32LessThan (a b : Nat) : Bool := decide (a % 4294967296 < b % 4294967296)

/-- Modelled from the spec: `Int32LessThan` of the code-stub assembler: signed
comparison of two 32-bit words. -/
def Int32LessThan (a b : Nat) : Bool := decide (Int32 a < Int32 b)

/-- Modelled from the spec: `TruncateFloat64ToWord32` of the code-stub assembler
(truncation toward zero to a candidate integer): the JavaScript truncation, which
takes the integer part modulo `2^32` and maps NaN and the infinities to 0. -/
def TruncateFloat64ToWord32 (x : Float64) : Nat :=
  if x.expo = 2047 then 0 else Word32 x.trunc

/-- Modelled from the spec: `ChangeInt32ToFloat64` of the code-stub assembler
(the candidate converted back to floating point): the float64 whose value is the
signed reading of the word; the conversion is exact. -/
def ChangeInt32ToFloat64 (w : Nat) : Float64 :=
  Float64.ofMagnitude (decide (Int32 w < 0)) (Int32 w).natAbs

/-- Modelled from the spec: `ChangeUint32ToFloat64` of the code-stub assembler: the
float64 whose value is the unsigned reading of the word; the conversion is exact. -/
def ChangeUint32ToFloat64 (w : Nat) : Float64 :=
  Float64.ofMagnitude false (w % 4294967296)

/-- Modelled from the spec: `Float64Equal` of the code-stub assembler: IEEE-754
equality. A NaN equals nothing, the two zeros are equal, and any other two floats
are equal exactly when their bits are. -/
def Float64Equal (x y : Float64) : Bool :=
  !x.isNaN && !y.isNaN && ((x.isZero && y.isZero) || decide (x = y))

/-! ## Tagged values -/

/-- Modelled from the spec: `Smi::kMinValue` of `objects.h`, the smallest Smi payload
on a 64-bit target. -/
def kSmiMinValue : Int := -2147483648

/-- Modelled from the spec: `Smi::kMaxValue` of `objects.h`, the largest Smi payload
on a 64-bit target. -/
def kSmiMaxValue : Int := 2147483647

/-- Modelled from the spec: `Smi::IsValid` of `objects.h`: the integer fits a Smi. -/
def SmiIsValid (n : Int) : Prop := kSmiMinValue ≤ n ∧ n ≤ kSmiMaxValue

instance (n : Int) : Decidable (SmiIsValid n) := by
  unfold SmiIsValid; exact inferInstance

/-- Modelled from the spec: a JavaScript number as the engine holds it (`objects.h`):
a Smi or a heap number. -/
inductive Number where
  | Smi (value : Int)
  | HeapNumber (value : Float64)
deriving DecidableEq

namespace Number

/-- The payload of a Smi is in the Smi range. -/
def WF : Number → Prop
  | Smi n => SmiIsValid n
  | HeapNumber _ => True

instance (x : Number) : Decidable x.WF := by
  cases x <;> (unfold WF; exact inferInstance)

/-- The number is exactly the integer `n`. -/
def IsInt : Number → Int → Prop
  | Smi k, n => k = n
  | HeapNumber f, n => f.IsInt n

instance (x : Number) (n : Int) : Decidable (x.IsInt n) := by
  cases x <;> (unfold IsInt; exact inferInstance)

end Number

/-- The error a request ends in: the three identities the builtins of this file
throw, an exception raised by a coercion, and the abort of an `Unreachable()`. -/
inductive Error where
  | kIncompatibleMethodReceiver
  | kNotIntegerSharedTypedArrayError
  | kInvalidAtomicAccessIndexError
  | Exception (id : Nat)
  | Unreachable
deriving DecidableEq

instance {ε α : Type} [DecidableEq ε] [DecidableEq α] : DecidableEq (Except ε α)
  | .ok a, .ok b =>
    if h : a = b then isTrue (by rw [h]) else isFalse (fun h2 => h (by cases h2; rfl))
  | .error a, .error b =>
    if h : a = b then isTrue (by rw [h]) else isFalse (fun h2 => h (by cases h2; rfl))
  | .ok _, .error _ => isFalse (fun h => by cases h)
  | .error _, .ok _ => isFalse (fun h => by cases h)

/-- Modelled from the spec: the instance-type enumeration of `objects.h`, which is not
in the source file. The nine fixed typed-array types are consecutive enumerators in
the order Int8, Uint8, Int16, Uint16, Int32, Uint32, Float32, Float64,
Uint8Clamped; the value of the first one is representative, only the order is
used. -/
def FIRST_FIXED_TYPED_ARRAY_TYPE : Nat := 139

/-- Instance type of an Int8 elements object. -/
def FIXED_INT8_ARRAY_TYPE : Nat := FIRST_FIXED_TYPED_ARRAY_TYPE
/-- Instance type of a Uint8 elements object. -/
def FIXED_UINT8_ARRAY_TYPE : Nat := FIRST_FIXED_TYPED_ARRAY_TYPE + 1
/-- Instance type of an Int16 elements object. -/
def FIXED_INT16_ARRAY_TYPE : Nat := FIRST_FIXED_TYPED_ARRAY_TYPE + 2
/-- Instance type of a Uint16 elements object. -/
def FIXED_UINT16_ARRAY_TYPE : Nat := FIRST_FIXED_TYPED_ARRAY_TYPE + 3
/-- Instance type of an Int32 elements object. -/
def FIXED_INT32_ARRAY_TYPE : Nat := FIRST_FIXED_TYPED_ARRAY_TYPE + 4
/-- Instance type of a Uint32 elements object. -/
def FIXED_UINT32_ARRAY_TYPE : Nat := FIRST_FIXED_TYPED_ARRAY_TYPE + 5
/-- Instance type of a Float32 elements object. -/
def FIXED_FLOAT32_ARRAY_TYPE : Nat := FIRST_FIXED_TYPED_ARRAY_TYPE + 6
/-- Instance type of a Float64 elements object. -/
def FIXED_FLOAT64_ARRAY_TYPE : Nat := FIRST_FIXED_TYPED_ARRAY_TYPE + 7
/-- Instance type of a Uint8Clamped elements object. -/
def FIXED_UINT8_CLAMPED_ARRAY_TYPE : Nat := FIRST_FIXED_TYPED_ARRAY_TYPE + 8

/-- Modelled from the spec: instance type of a heap number (`objects.h`), a
representative value. -/
def HEAP_NUMBER_TYPE : Nat := 129
/-- Modelled from the spec: instance type of an array buffer (`objects.h`), a
representative value. -/
def JS_ARRAY_BUFFER_TYPE : Nat := 194
/-- Modelled from the spec: instance type of a typed array (`objects.h`), a
representative value. -/
def JS_TYPED_ARRAY_TYPE : Nat := 195

/-- The element kind of a typed view: which of the nine fixed typed arrays its
elements object is. -/
inductive ElementKind where
  | Int8 | Uint8 | Int16 | Uint16 | Int32 | Uint32 | Float32 | Float64 | Uint8Clamped
deriving DecidableEq

namespace ElementKind

/-- The instance type of the elements object of a view of this kind. -/
def instance_type : ElementKind → Nat
  | Int8 => FIXED_INT8_ARRAY_TYPE
  | Uint8 => FIXED_UINT8_ARRAY_TYPE
  | Int16 => FIXED_INT16_ARRAY_TYPE
  | Uint16 => FIXED_UINT16_ARRAY_TYPE
  | Int32 => FIXED_INT32_ARRAY_TYPE
  | Uint32 => FIXED_UINT32_ARRAY_TYPE
  | Float32 => FIXED_FLOAT32_ARRAY_TYPE
  | Float64 => FIXED_FLOAT64_ARRAY_TYPE
  | Uint8Clamped => FIXED_UINT8_CLAMPED_ARRAY_TYPE

/-- The six integer kinds the atomics accept. -/
def eligible : ElementKind → Bool
  | Int8 | Uint8 | Int16 | Uint16 | Int32 | Uint32 => true
  | Float32 | Float64 | Uint8Clamped => false

/-- Width of a cell in bits, for an eligible kind. -/
def bits : ElementKind → Nat
  | Int8 | Uint8 | Uint8Clamped => 8
  | Int16 | Uint16 => 16
  | Int32 | Uint32 | Float32 => 32
  | Float64 => 64

/-- Signed integer kind. -/
def signed : ElementKind → Bool
  | Int8 | Int16 | Int32 => true
  | _ => false

/-- The integer `v` wrapped into the range of an integer kind: the residue of `v`
modulo `2^bits`, read as signed for a signed kind. -/
def truncate_to_kind (k : ElementKind) (v : Int) : Int :=
  let r := v % ((2 ^ k.bits : Nat) : Int)
  if k.signed && decide (((2 ^ (k.bits - 1) : Nat) : Int) ≤ r) then r - ((2 ^ k.bits : Nat) : Int)
  else r

/-- The integer `v` is a value of the kind. -/
def representable (k : ElementKind) (v : Int) : Prop :=
  if k.signed then -((2 ^ (k.bits - 1) : Nat) : Int) ≤ v ∧ v < ((2 ^ (k.bits - 1) : Nat) : Int)
  else 0 ≤ v ∧ v < ((2 ^ k.bits : Nat) : Int)

instance (k : ElementKind) (v : Int) : Decidable (k.representable v) := by
  unfold representable; exact inferInstance

end ElementKind

/-- Modelled from the spec: the fields of a `JSArrayBuffer` (`objects.h`) the builtins
read: the `IsShared` bit of its bit field, the address of its backing store and
its byte length. -/
structure JSArrayBuffer where
  is_shared : Bool
  backing_store : Nat
  byte_length : Number

/-- Modelled from the spec: the fields of a `JSTypedArray` (`objects.h`) the builtins
read: its buffer, the kind of its elements object, its byte offset and its length
in elements. -/
structure JSTypedArray where
  buffer : JSArrayBuffer
  elements : ElementKind
  byte_offset : Number
  length : Number

/-- Modelled from the spec: a tagged value (`objects.h`): a Smi or a heap object. A
heap object is a heap number, a typed array, an array buffer, or any other object,
of which only the instance type is kept. -/
inductive Tagged where
  | Smi (value : Int)
  | HeapNumber (value : Float64)
  | JSTypedArray (array : JSTypedArray)
  | JSArrayBuffer (buffer : JSArrayBuffer)
  | HeapObject (instance_type : Nat) (not_typed_array : instance_type ≠ JS_TYPED_ARRAY_TYPE)

/-- A number as a tagged value. -/
def Number.toTagged : Number → Tagged
  | .Smi n => .Smi n
  | .HeapNumber f => .HeapNumber f

/-- Modelled from the spec: `TaggedIsSmi` of the code-stub assembler: the tagged value
is a Smi. -/
def TaggedIsSmi : Tagged → Bool
  | .Smi _ => true
  | _ => false

/-- Modelled from the spec: `LoadInstanceType` of the code-stub assembler: the instance
type in the map of a heap object; it is read only after `TaggedIsSmi` has failed. -/
def LoadInstanceType : Tagged → Nat
  | .Smi _ => 0
  | .HeapNumber _ => HEAP_NUMBER_TYPE
  | .JSTypedArray _ => JS_TYPED_ARRAY_TYPE
  | .JSArrayBuffer _ => JS_ARRAY_BUFFER_TYPE
  | .HeapObject t _ => t

/-- Modelled from the spec: the numeric-coercion collaborator reached through
`context`, which is not in the source file: `ToNumber` (`coerce_to_number`) and
`ToInteger` (`coerce_to_integer`), each yielding a number or raising an
exception. -/
structure Context where
  ToNumber : Tagged → Except Error Number
  ToInteger : Tagged → Except Error Number

/-- A sample collaborator, for running the builtins on concrete requests whose
operands are integers: a number is returned unchanged, anything else raises. -/
def Context.sample : Context where
  ToNumber
    | .Smi n => .ok (.Smi n)
    | .HeapNumber f => .ok (.HeapNumber f)
    | _ => .error (.Exception 0)
  ToInteger
    | .Smi n => .ok (.Smi n)
    | .HeapNumber f => .ok (.HeapNumber f)
    | _ => .error (.Exception 0)

/-! ## Shared memory and the atomic machine operations -/

/-- Shared memory: the byte at each address. -/
def Memory : Type := Nat → Nat

/-- Modelled from the spec: `IntPtrAdd` of the code-stub assembler: pointer-sized
addition, modulo `2^64`. -/
def IntPtrAdd (a b : Nat) : Nat := (a + b) % 18446744073709551616

/-- Modelled from the spec: `WordShl` of the code-stub assembler: pointer-sized left
shift, modulo `2^64`. -/
def WordShl (a k : Nat) : Nat := (a * 2 ^ k) % 18446744073709551616

/-- Modelled from the spec: `ChangeUint32ToWord` of the code-stub assembler: zero
extension of a 32-bit word to a pointer-sized word. -/
def ChangeUint32ToWord (w : Nat) : Nat := w % 4294967296

/-- Modelled from the spec: `BitcastTaggedToWord` of the code-stub assembler: a pointer
field reinterpreted as a pointer-sized word. -/
def BitcastTaggedToWord (p : Nat) : Nat := p % 18446744073709551616

namespace Memory

/-- The unsigned little-endian value of the `size` bytes from `address` on. -/
def load (mem : Memory) : Nat → Nat → Nat
  | _, 0 => 0
  | address, size + 1 => mem address % 256 + 256 * load mem (address + 1) size

/-- The memory after the low `size` bytes of `value` are written, little-endian,
from `address` on. -/
def store (mem : Memory) : Nat → Nat → Nat → Memory
  | _, 0, _ => mem
  | address, size + 1, value =>
    fun a => if a = address then value % 256 else store mem (address + 1) size (value / 256) a

end Memory

/-- Modelled from the spec: the machine types (`MachineType`) of the atomic accesses. -/
inductive MachineType where
  | Int8 | Uint8 | Int16 | Uint16 | Int32 | Uint32
deriving DecidableEq

namespace MachineType

/-- Size of the cell in bytes. -/
def size : MachineType → Nat
  | Int8 | Uint8 => 1
  | Int16 | Uint16 => 2
  | Int32 | Uint32 => 4

/-- The cell is read as a signed integer. -/
def IsSigned : MachineType → Bool
  | Int8 | Int16 | Int32 => true
  | Uint8 | Uint16 | Uint32 => false

end MachineType

/-- Modelled from the spec: the machine representations (`MachineRepresentation`) of
the atomic stores. -/
inductive MachineRepresentation where
  | kWord8 | kWord16 | kWord32
deriving DecidableEq

/-- Size of a representation in bytes. -/
def MachineRepresentation.size : MachineRepresentation → Nat
  | kWord8 => 1
  | kWord16 => 2
  | kWord32 => 4

/-- The 32-bit word holding the `size`-byte cell value `v`, sign-extended when
`signed` and zero-extended otherwise. -/
def Extend (signed : Bool) (size v : Nat) : Nat :=
  if signed && decide (2 ^ (8 * size - 1) ≤ v) then v + 4294967296 - 2 ^ (8 * size) else v

/-- Modelled from the spec: `AtomicLoad` of the code-stub assembler: the cell of the
machine type at `base + offset`, read in one step and sign- or zero-extended to
a 32-bit word. -/
def AtomicLoad (mem : Memory) (type : MachineType) (base offset : Nat) : Nat :=
  Extend type.IsSigned type.size (mem.load (IntPtrAdd base offset) type.size)

/-- Modelled from the spec: `AtomicStore` of the code-stub assembler: the word
truncated to the width of the representation and written in one step to the cell
at `base + offset`. -/
def AtomicStore (mem : Memory) (rep : MachineRepresentation) (base offset value : Nat) :
    Memory :=
  mem.store (IntPtrAdd base offset) rep.size value

/-- Modelled from the spec: `AtomicExchange` of the code-stub assembler: in one
step, the previous content of the cell, extended per machine type, and the
memory with the truncated word written to the cell. -/
def AtomicExchange (mem : Memory) (type : MachineType) (base offset value : Nat) :
    Nat × Memory :=
  (Extend type.IsSigned type.size (mem.load (IntPtrAdd base offset) type.size),
   mem.store (IntPtrAdd base offset) type.size value)

/-! ## Conversions between words and tagged numbers -/

/-- Modelled from the spec: `SmiToWord32` of the code-stub assembler: the payload of a
Smi as a 32-bit word. -/
def SmiToWord32 (n : Int) : Nat := Word32 n

/-- Modelled from the spec: `SmiFromWord32` of the code-stub assembler: the Smi whose
payload is the signed reading of the word. -/
def SmiFromWord32 (w : Nat) : Number := .Smi (Int32 w)

/-- Modelled from the spec: `ChangeInt32ToTagged` of the code-stub assembler: the signed
reading of the word as a tagged number, a Smi when it fits, a heap number
otherwise. -/
def ChangeInt32ToTagged (w : Nat) : Number :=
  if SmiIsValid (Int32 w) then .Smi (Int32 w) else .HeapNumber (ChangeInt32ToFloat64 w)

/-- Modelled from the spec: `ChangeUint32ToTagged` of the code-stub assembler: the
unsigned reading of the word as a tagged number, a Smi when it fits, a heap number
otherwise. -/
def ChangeUint32ToTagged (w : Nat) : Number :=
  if ((w % 4294967296 : Nat) : Int) ≤ kSmiMaxValue then .Smi ((w % 4294967296 : Nat) : Int)
  else .HeapNumber (ChangeUint32ToFloat64 w)

/-- Modelled from the spec: `TruncateTaggedToWord32` of the code-stub assembler, on a
number: the payload of a Smi, the JavaScript truncation of a heap number. -/
def TruncateTaggedToWord32 : Number → Nat
  | .Smi n => SmiToWord32 n
  | .HeapNumber f => TruncateFloat64ToWord32 f

/-- Modelled from the spec: `LoadObjectField(array, JSTypedArray::kLengthOffset)`: the
length field of a typed array; it is read only after the operand has been validated
as a typed array. -/
def LoadLength : Tagged → Number
  | .JSTypedArray a => a.length
  | _ => .Smi 0

/-! ## The functions of `builtins-sharedarraybuffer.cc` -/

/-- Source function `SharedArrayBufferBuiltinsAssembler::ValidateSharedTypedArray`:
every failed check jumps to the one label `invalid`, which throws
`kThrowNotIntegerSharedTypedArrayError`; on success the outputs are the instance
type of the elements object and the backing-store address plus the byte offset. -/
def ValidateSharedTypedArray (tagged : Tagged) : Except Error (Nat × Nat) :=
  -- Fail if it is not a heap object.
  if TaggedIsSmi tagged then .error .kNotIntegerSharedTypedArrayError
  -- Fail if the array's instance type is not JSTypedArray.
  else if LoadInstanceType tagged ≠ JS_TYPED_ARRAY_TYPE then
    .error .kNotIntegerSharedTypedArrayError
  else
    match tagged with
    | .JSTypedArray array =>
      -- Fail if the array's JSArrayBuffer is not shared.
      let array_buffer := array.buffer
      if !array_buffer.is_shared then .error .kNotIntegerSharedTypedArrayError
      else
        -- Fail if the array's element type is float32, float64 or clamped.
        let elements_instance_type := array.elements.instance_type
        if Int32LessThan elements_instance_type FIXED_FLOAT32_ARRAY_TYPE then
          let backing_store := array_buffer.backing_store
          let byte_offset := ChangeUint32ToWord (TruncateTaggedToWord32 array.byte_offset)
          .ok (elements_instance_type, IntPtrAdd (BitcastTaggedToWord backing_store) byte_offset)
        else .error .kNotIntegerSharedTypedArrayError
    -- no other object has the instance type of a typed array
    | _ => .error .kNotIntegerSharedTypedArrayError

/-- Source function
`SharedArrayBufferBuiltinsAssembler::ConvertTaggedAtomicIndexToWord32`: the result
word together with the output parameter `number_index`. -/
def ConvertTaggedAtomicIndexToWord32 (context : Context) (tagged : Tagged) :
    Except Error (Nat × Number) :=
  match context.ToNumber tagged with
  | .error e => .error e
  | .ok number_index =>
    match number_index with
    | .Smi n => .ok (SmiToWord32 n, number_index)
    | .HeapNumber number_index_value =>
      let access_index := TruncateFloat64ToWord32 number_index_value
      let test_index := ChangeInt32ToFloat64 access_index
      if Float64Equal number_index_value test_index then .ok (access_index, number_index)
      else .error .kInvalidAtomicAccessIndexError

/-- Source function `SharedArrayBufferBuiltinsAssembler::ValidateAtomicIndex`: check
if the index is in bounds, if not throw the RangeError. -/
def ValidateAtomicIndex (index_word array_length_word : Nat) : Except Error Unit :=
  if Uint32LessThan index_word array_length_word then .ok ()
  else .error .kInvalidAtomicAccessIndexError

/-- Builtin `TF_BUILTIN(AtomicsLoad, ...)`: the completion of the call and the memory
after it. -/
def AtomicsLoad (context : Context) (mem : Memory) (array index : Tagged) :
    Except Error Number × Memory :=
  match ValidateSharedTypedArray array with
  | .error e => (.error e, mem)
  | .ok (instance_type, backing_store) =>
  match ConvertTaggedAtomicIndexToWord32 context index with
  | .error e => (.error e, mem)
  | .ok (index_word32, _) =>
  let array_length_word32 := TruncateTaggedToWord32 (LoadLength array)
  match ValidateAtomicIndex index_word32 array_length_word32 with
  | .error e => (.error e, mem)
  | .ok () =>
  let index_word := ChangeUint32ToWord index_word32
  if instance_type = FIXED_INT8_ARRAY_TYPE then
    (.ok (SmiFromWord32 (AtomicLoad mem .Int8 backing_store index_word)), mem)
  else if instance_type = FIXED_UINT8_ARRAY_TYPE then
    (.ok (SmiFromWord32 (AtomicLoad mem .Uint8 backing_store index_word)), mem)
  else if instance_type = FIXED_INT16_ARRAY_TYPE then
    (.ok (SmiFromWord32 (AtomicLoad mem .Int16 backing_store (WordShl index_word 1))), mem)
  else if instance_type = FIXED_UINT16_ARRAY_TYPE then
    (.ok (SmiFromWord32 (AtomicLoad mem .Uint16 backing_store (WordShl index_word 1))), mem)
  else if instance_type = FIXED_INT32_ARRAY_TYPE then
    (.ok (ChangeInt32ToTagged (AtomicLoad mem .Int32 backing_store (WordShl index_word 2))), mem)
  else if instance_type = FIXED_UINT32_ARRAY_TYPE then
    (.ok (ChangeUint32ToTagged (AtomicLoad mem .Uint32 backing_store (WordShl index_word 2))),
      mem)
  -- This shouldn't happen, we've already validated the type.
  else (.error .Unreachable, mem)

/-- Builtin `TF_BUILTIN(AtomicsStore, ...)`: the completion of the call and the memory
after it. -/
def AtomicsStore (context : Context) (mem : Memory) (array index value : Tagged) :
    Except Error Number × Memory :=
  match ValidateSharedTypedArray array with
  | .error e => (.error e, mem)
  | .ok (instance_type, backing_store) =>
  match ConvertTaggedAtomicIndexToWord32 context index with
  | .error e => (.error e, mem)
  | .ok (index_word32, _) =>
  let array_length_word32 := TruncateTaggedToWord32 (LoadLength array)
  match ValidateAtomicIndex index_word32 array_length_word32 with
  | .error e => (.error e, mem)
  | .ok () =>
  let index_word := ChangeUint32ToWord index_word32
  match context.ToInteger value with
  | .error e => (.error e, mem)
  | .ok value_integer =>
  let value_word32 := TruncateTaggedToWord32 value_integer
  if instance_type = FIXED_INT8_ARRAY_TYPE ∨ instance_type = FIXED_UINT8_ARRAY_TYPE then
    (.ok value_integer, AtomicStore mem .kWord8 backing_store index_word value_word32)
  else if instance_type = FIXED_INT16_ARRAY_TYPE ∨ instance_type = FIXED_UINT16_ARRAY_TYPE then
    (.ok value_integer,
      AtomicStore mem .kWord16 backing_store (WordShl index_word 1) value_word32)
  else if instance_type = FIXED_INT32_ARRAY_TYPE ∨ instance_type = FIXED_UINT32_ARRAY_TYPE then
    (.ok value_integer,
      AtomicStore mem .kWord32 backing_store (WordShl index_word 2) value_word32)
  -- This shouldn't happen, we've already validated the type.
  else (.error .Unreachable, mem)

/-- The `(result, memory)` pair of an exchange, with the result word tagged by
`tag`. -/
def ExchangeResult (tag : Nat → Number) (r : Nat × Memory) : Except Error Number × Memory :=
  (.ok (tag r.1), r.2)

/-- Builtin `TF_BUILTIN(AtomicsExchange, ...)`, the branch compiled for the targets that
have the atomic exchange instructions (the `#else` branch): the completion of the call
and the memory after it. -/
def AtomicsExchange (context : Context) (mem : Memory) (array index value : Tagged) :
    Except Error Number × Memory :=
  match ValidateSharedTypedArray array with
  | .error e => (.error e, mem)
  | .ok (instance_type, backing_store) =>
  match ConvertTaggedAtomicIndexToWord32 context index with
  | .error e => (.error e, mem)
  | .ok (index_word32, _) =>
  let array_length_word32 := TruncateTaggedToWord32 (LoadLength array)
  match ValidateAtomicIndex index_word32 array_length_word32 with
  | .error e => (.error e, mem)
  | .ok () =>
  match context.ToInteger value with
  | .error e => (.error e, mem)
  | .ok value_integer =>
  let index_word := ChangeUint32ToWord index_word32
  let value_word32 := TruncateTaggedToWord32 value_integer
  if instance_type = FIXED_INT8_ARRAY_TYPE then
    ExchangeResult SmiFromWord32 (AtomicExchange mem .Int8 backing_store index_word value_word32)
  else if instance_type = FIXED_UINT8_ARRAY_TYPE then
    ExchangeResult SmiFromWord32 (AtomicExchange mem .Uint8 backing_store index_word value_word32)
  else if instance_type = FIXED_INT16_ARRAY_TYPE then
    ExchangeResult SmiFromWord32
      (AtomicExchange mem .Int16 backing_store (WordShl index_word 1) value_word32)
  else if instance_type = FIXED_UINT16_ARRAY_TYPE then
    ExchangeResult SmiFromWord32
      (AtomicExchange mem .Uint16 backing_store (WordShl index_word 1) value_word32)
  else if instance_type = FIXED_INT32_ARRAY_TYPE then
    ExchangeResult ChangeInt32ToTagged
      (AtomicExchange mem .Int32 backing_store (WordShl index_word 2) value_word32)
  else if instance_type = FIXED_UINT32_ARRAY_TYPE then
    ExchangeResult ChangeUint32ToTagged
      (AtomicExchange mem .Uint32 backing_store (WordShl index_word 2) value_word32)
  -- This shouldn't happen, we've already validated the type.
  else (.error .Unreachable, mem)

/-! ## Sample values -/

/-- The float `2.0`. -/
def f64_2 : Float64 := ⟨false, 1024, 0, by decide, by decide⟩
/-- The float `2.5`. -/
def f64_2_5 : Float64 := ⟨false, 1024, 1125899906842624, by decide, by decide⟩
/-- The float `-1.0`. -/
def f64_neg1 : Float64 := ⟨true, 1023, 0, by decide, by decide⟩
/-- A quiet NaN. -/
def f64_NaN : Float64 := ⟨false, 2047, 2251799813685248, by decide, by decide⟩
/-- The float `2^31`. -/
def f64_2p31 : Float64 := ⟨false, 1054, 0, by decide, by decide⟩
/-- The float `2^32`. -/
def f64_2p32 : Float64 := ⟨false, 1055, 0, by decide, by decide⟩
/-- The float `2^32 + 1`. -/
def f64_2p32_1 : Float64 := ⟨false, 1055, 1048576, by decide, by decide⟩

/-- A shared buffer at address 4096. -/
def sampleBuffer : JSArrayBuffer := ⟨true, 4096, .Smi 64⟩

/-- A shared view of length 4 and byte offset 8 of the given kind. -/
def sampleView (k : ElementKind) : JSTypedArray := ⟨sampleBuffer, k, .Smi 8, .Smi 4⟩

/-- Memory with every byte zero. -/
def zeroMemory : Memory := fun _ => 0

/-! ## A uniform reading of the six typed branches -/

namespace ElementKind

/-- Size of a cell in bytes. -/
def size : ElementKind → Nat
  | Int8 | Uint8 | Uint8Clamped => 1
  | Int16 | Uint16 => 2
  | Int32 | Uint32 | Float32 => 4
  | Float64 => 8

/-- The machine type with which `AtomicsLoad` and `AtomicsExchange` access a cell
of an eligible kind. -/
def machineType : ElementKind → MachineType
  | Int8 => .Int8
  | Uint8 => .Uint8
  | Int16 => .Int16
  | Uint16 => .Uint16
  | Int32 => .Int32
  | _ => .Uint32

/-- The byte offset of cell `index_word32` as the typed branches compute it: the
zero-extended index, shifted left by 1 for the 16-bit kinds and by 2 for the
32-bit kinds. -/
def offset (k : ElementKind) (index_word32 : Nat) : Nat :=
  match k with
  | Int8 | Uint8 => ChangeUint32ToWord index_word32
  | Int16 | Uint16 => WordShl (ChangeUint32ToWord index_word32) 1
  | _ => WordShl (ChangeUint32ToWord index_word32) 2

/-- The tagging of the loaded word in the typed branches: a Smi for the 8-bit and
16-bit kinds, `ChangeInt32ToTagged` for Int32, `ChangeUint32ToTagged` for Uint32. -/
def tag (k : ElementKind) (w : Nat) : Number :=
  match k with
  | Int32 => ChangeInt32ToTagged w
  | Uint32 => ChangeUint32ToTagged w
  | _ => SmiFromWord32 w

end ElementKind

/-- The backing address `ValidateSharedTypedArray` outputs for a typed array. -/
def JSTypedArray.backing_address (a : JSTypedArray) : Nat :=
  IntPtrAdd (BitcastTaggedToWord a.buffer.backing_store)
    (ChangeUint32ToWord (TruncateTaggedToWord32 a.byte_offset))

/-- The address of cell `index_word32` of a typed array, as the typed branches
compute it. -/
def JSTypedArray.cell_address (a : JSTypedArray) (index_word32 : Nat) : Nat :=
  IntPtrAdd a.backing_address (a.elements.offset index_word32)

/-- The value `AtomicsLoad` returns for cell `index_word32` of a typed array of an
eligible kind, read from `mem`. -/
def JSTypedArray.cell_value (a : JSTypedArray) (mem : Memory) (index_word32 : Nat) : Number :=
  a.elements.tag (AtomicLoad mem a.elements.machineType a.backing_address
    (a.elements.offset index_word32))

/-- The steps the three builtins share before they touch the operand value or the
memory: view validation, index conversion, bounds check. The outputs are the
elements instance type, the backing address and the index word. -/
def ValidateRequest (context : Context) (array index : Tagged) : Except Error (Nat × Nat × Nat) :=
  match ValidateSharedTypedArray array with
  | .error e => .error e
  | .ok (instance_type, backing_store) =>
  match ConvertTaggedAtomicIndexToWord32 context index with
  | .error e => .error e
  | .ok (index_word32, _) =>
  match ValidateAtomicIndex index_word32 (TruncateTaggedToWord32 (LoadLength array)) with
  | .error e => .error e
  | .ok () => .ok (instance_type, backing_store, index_word32)

/-! ## Sample requests -/

/-- The sample Int16 view of length 4, as an operand. -/
def int16View : Tagged := .JSTypedArray (sampleView .Int16)

/-- The memory after `AtomicsStore(int16View, 1, 300)` on zeroed memory. -/
def mem300 : Memory :=
  (AtomicsStore Context.sample zeroMemory int16View (.Smi 1) (.Smi 300)).2

/-- The memory after `AtomicsExchange(int16View, 1, -1)` on `mem300`. -/
def memNeg1 : Memory :=
  (AtomicsExchange Context.sample mem300 int16View (.Smi 1) (.Smi (-1))).2

/-- A heap object that is no typed array: one with the instance type of a heap
number's neighbour in the enumeration. -/
def plainObject : Tagged := .HeapObject 130 (by decide)

/-- The memory after `AtomicsStore(view, 1, 300)` on zeroed memory, for the sample
view of the given kind. -/
def memStore300 (k : ElementKind) : Memory :=
  (AtomicsStore Context.sample zeroMemory (.JSTypedArray (sampleView k)) (.Smi 1) (.Smi 300)).2

/-- Modelled from the spec: `IsJSArrayBuffer` of `objects.h`: the receiver is an array
buffer object. -/
def IsJSArrayBuffer : Tagged → Bool
  | .JSArrayBuffer _ => true
  | _ => false

/-- Modelled from the spec: the macro `CHECK_RECEIVER(JSArrayBuffer, array_buffer, ...)`
of `builtins-utils.h`, which is not in the source file: a receiver that is not an
array buffer throws the TypeError `kIncompatibleMethodReceiver`, otherwise the
receiver is bound as an array buffer. -/
def CHECK_RECEIVER_JSArrayBuffer (receiver : Tagged) : Except Error JSArrayBuffer :=
  match receiver with
  | .JSArrayBuffer array_buffer => .ok array_buffer
  | _ => .error .kIncompatibleMethodReceiver

/-- Builtin `BUILTIN(SharedArrayBufferPrototypeGetByteLength)`, the getter of
`SharedArrayBuffer.prototype.byteLength`, on its receiver. -/
def SharedArrayBufferPrototypeGetByteLength (receiver : Tagged) : Except Error Number :=
  match CHECK_RECEIVER_JSArrayBuffer receiver with
  | .error e => .error e
  | .ok array_buffer =>
    if !array_buffer.is_shared then .error .kIncompatibleMethodReceiver
    else .ok array_buffer.byte_length

/-! ## Further sample values -/

/-- The float `-0.0`. -/
def f64_negZero : Float64 := ⟨true, 0, 0, by decide, by decide⟩

/-- The float `+0.0`. -/
def f64_zero : Float64 := ⟨false, 0, 0, by decide, by decide⟩

/-- An array buffer that is not shared. -/
def unsharedBuffer : JSArrayBuffer := ⟨false, 4096, .Smi 64⟩

namespace ElementKind

/-- The shift amount of the typed branches: 0 for the 8-bit kinds (no shift), 1 for
the 16-bit kinds, 2 for the 32-bit kinds. -/
def shift : ElementKind → Nat
  | Int8 | Uint8 | Uint8Clamped => 0
  | Int16 | Uint16 => 1
  | Int32 | Uint32 | Float32 => 2
  | Float64 => 3

end ElementKind

/-- The memory after `AtomicsStore(view, 1, v)` on zeroed memory, for the sample view
of the given kind and a Smi `v`. -/
def memStore (k : ElementKind) (v : Int) : Memory :=
  (AtomicsStore Context.sample zeroMemory (.JSTypedArray (sampleView k)) (.Smi 1) (.Smi v)).2

/-- A shared Int16 view of length 1 at address 4096, as an operand. -/
def oneElementView : Tagged := .JSTypedArray ⟨sampleBuffer, .Int16, .Smi 0, .Smi 1⟩

/-- The memory after `AtomicsStore(oneElementView, 0, 300)` on zeroed memory. -/
def memOneElement : Memory :=
  (AtomicsStore Context.sample zeroMemory oneElementView (.Smi 0) (.Smi 300)).2

/-! ## Arithmetic of the float64 model -/

namespace Float64

theorem normalize_spec (fuel : Nat) : ∀ m e : Nat, 0 < m → m < 9007199254740992 →
    4503599627370496 ≤ m * 2 ^ fuel → fuel < e →
    4503599627370496 ≤ (normalize fuel m e).1 ∧ (normalize fuel m e).1 < 9007199254740992 ∧
    (normalize fuel m e).2 ≤ e ∧ e ≤ (normalize fuel m e).2 + fuel ∧
    (normalize fuel m e).1 * 2 ^ ((normalize fuel m e).2 - 1) = m * 2 ^ (e - 1) := by
  induction fuel with
  | zero =>
    intro m e _ hlt hge _
    simp only [pow_zero, Nat.mul_one] at hge
    show 4503599627370496 ≤ m ∧ m < 9007199254740992 ∧ e ≤ e ∧ e ≤ e + 0 ∧
      m * 2 ^ (e - 1) = m * 2 ^ (e - 1)
    exact ⟨hge, hlt, le_refl _, le_refl _, rfl⟩
  | succ n ih =>
    intro m e hm hlt hge he
    unfold normalize
    split
    · rename_i hsmall
      have hge2 : 4503599627370496 ≤ 2 * m * 2 ^ n := by
        have : m * 2 ^ (n + 1) = 2 * m * 2 ^ n := by rw [pow_succ]; ring
        omega
      obtain ⟨h1, h2, h3, h4, h5⟩ := ih (2 * m) (e - 1) (by omega) (by omega) hge2 (by omega)
      refine ⟨h1, h2, by omega, by omega, ?_⟩
      rw [h5]
      have he2 : e - 1 = (e - 1 - 1) + 1 := by omega
      conv_rhs => rw [he2, pow_succ]
      ring
    · rename_i hbig
      exact ⟨by omega, hlt, le_refl _, by omega, rfl⟩

theorem ofMagnitude_spec (s : Bool) (a : Nat) (ha : a < 9007199254740992) :
    (ofMagnitude s a).expo < 2047 ∧ (ofMagnitude s a).sign = s ∧
    (ofMagnitude s a).scaledMag = a * 2 ^ 1074 := by
  unfold ofMagnitude
  split
  · rename_i h0
    subst h0
    simp [scaledMag, significand]
  · rename_i h0
    have hge : 4503599627370496 ≤ a * 2 ^ 52 := by
      have : (2:Nat) ^ 52 = 4503599627370496 := by norm_num
      rw [this]
      have : 1 ≤ a := Nat.pos_of_ne_zero h0
      nlinarith
    obtain ⟨h1, h2, h3, h4, h5⟩ := normalize_spec 52 a 1075 (Nat.pos_of_ne_zero h0) ha hge
      (by decide)
    have he : (normalize 52 a 1075).2 % 2048 = (normalize 52 a 1075).2 := Nat.mod_eq_of_lt (by omega)
    have hm : (normalize 52 a 1075).1 % 4503599627370496
        = (normalize 52 a 1075).1 - 4503599627370496 := by omega
    refine ⟨?_, rfl, ?_⟩
    · show (normalize 52 a 1075).2 % 2048 < 2047
      omega
    · show significand _ * 2 ^ shift _ = _
      have hne : (normalize 52 a 1075).2 % 2048 ≠ 0 := by omega
      have hne2 : (normalize 52 a 1075).2 ≠ 0 := by omega
      simp only [significand, shift, he, hm, hne2, if_false]
      rw [show 4503599627370496 + ((normalize 52 a 1075).1 - 4503599627370496)
        = (normalize 52 a 1075).1 by omega]
      exact h5

theorem scaledMag_eq_zero_iff (x : Float64) : x.scaledMag = 0 ↔ x.isZero = true := by
  unfold scaledMag significand isZero
  have hp : 0 < 2 ^ x.shift := Nat.pow_pos (by decide)
  constructor
  · intro h
    rcases Nat.mul_eq_zero.1 h with h1 | h1
    · split at h1
      · rename_i he; simp [he, h1]
      · omega
    · omega
  · intro h
    simp only [Bool.and_eq_true, beq_iff_eq] at h
    simp [h.1, h.2]

theorem pow_unique_aux (s1 s2 k1 k2 : Nat) (h1 : s1 < 9007199254740992)
    (h2 : 4503599627370496 ≤ s2) (h : s1 * 2 ^ k1 = s2 * 2 ^ k2) : k2 ≤ k1 := by
  by_contra hlt
  have hk : k2 = k1 + (k2 - k1 - 1) + 1 := by omega
  rw [hk, pow_succ, pow_add] at h
  have hp : 0 < 2 ^ k1 := Nat.pow_pos (by decide)
  have hq : 1 ≤ 2 ^ (k2 - k1 - 1) := Nat.pow_pos (by decide)
  have h3 : s1 * 2 ^ k1 = (s2 * 2 ^ (k2 - k1 - 1) * 2) * 2 ^ k1 := by rw [h]; ring
  have h4 : s1 = s2 * 2 ^ (k2 - k1 - 1) * 2 := Nat.eq_of_mul_eq_mul_right hp h3
  have h5 : s2 * 1 ≤ s2 * 2 ^ (k2 - k1 - 1) := Nat.mul_le_mul_left _ hq
  omega

theorem fields_eq_of_scaledMag_eq (x y : Float64) (h : x.scaledMag = y.scaledMag) :
    x.expo = y.expo ∧ x.mant = y.mant := by
  have hx := x.mant_lt
  have hy := y.mant_lt
  unfold scaledMag significand shift at h
  by_cases hxe : x.expo = 0 <;> by_cases hye : y.expo = 0
  · simp only [hxe, hye, if_true, pow_zero, Nat.mul_one] at h
    exact ⟨by omega, h⟩
  · simp only [hxe, hye, if_true, if_false, pow_zero, Nat.mul_one] at h
    have : 1 ≤ 2 ^ (y.expo - 1) := Nat.pow_pos (by decide)
    have : (4503599627370496 + y.mant) * 1 ≤ (4503599627370496 + y.mant) * 2 ^ (y.expo - 1) :=
      Nat.mul_le_mul_left _ this
    omega
  · simp only [hxe, hye, if_true, if_false, pow_zero, Nat.mul_one] at h
    have : 1 ≤ 2 ^ (x.expo - 1) := Nat.pow_pos (by decide)
    have : (4503599627370496 + x.mant) * 1 ≤ (4503599627370496 + x.mant) * 2 ^ (x.expo - 1) :=
      Nat.mul_le_mul_left _ this
    omega
  · simp only [hxe, hye, if_false] at h
    have h1 := pow_unique_aux _ _ _ _ (by omega : 4503599627370496 + x.mant < 9007199254740992)
      (by omega : 4503599627370496 ≤ 4503599627370496 + y.mant) h
    have h2 := pow_unique_aux _ _ _ _ (by omega : 4503599627370496 + y.mant < 9007199254740992)
      (by omega : 4503599627370496 ≤ 4503599627370496 + x.mant) h.symm
    have he : x.expo - 1 = y.expo - 1 := by omega
    rw [he] at h
    have := Nat.eq_of_mul_eq_mul_right (Nat.pow_pos (by decide) : 0 < 2 ^ (y.expo - 1)) h
    exact ⟨by omega, by omega⟩

theorem eq_of_fields (x y : Float64) (hs : x.sign = y.sign) (he : x.expo = y.expo)
    (hm : x.mant = y.mant) : x = y := by
  cases x; cases y; simp only [mk.injEq]; exact ⟨hs, he, hm⟩

theorem natAbs_scaled (x : Float64) : x.scaled.natAbs = x.scaledMag := by
  unfold scaled; split <;> simp

/-- Two floats of equal value are both zero or have the same bits. -/
theorem eq_or_zero_of_scaled_eq (x y : Float64) (h : x.scaled = y.scaled) :
    (x.isZero = true ∧ y.isZero = true) ∨ x = y := by
  have hmag : x.scaledMag = y.scaledMag := by
    rw [← natAbs_scaled, ← natAbs_scaled, h]
  by_cases hz : x.scaledMag = 0
  · left
    exact ⟨(scaledMag_eq_zero_iff x).1 hz, (scaledMag_eq_zero_iff y).1 (by omega)⟩
  · right
    obtain ⟨he, hm⟩ := fields_eq_of_scaledMag_eq x y hmag
    refine eq_of_fields x y ?_ he hm
    unfold scaled at h
    rw [← hmag] at h
    cases hxs : x.sign <;> cases hys : y.sign <;>
      simp only [hxs, hys, if_true, if_false, Bool.false_eq_true] at h
    · rfl
    · exfalso; omega
    · exfalso; omega
    · rfl

theorem trunc_mul (x : Float64) (n : Int) (h : x.IsInt n) : x.trunc = n := by
  obtain ⟨_, hs⟩ := h
  have hK : (0 : Int) < ((2 ^ 1074 : Nat) : Int) := by
    exact_mod_cast (Nat.pow_pos (by decide) : 0 < 2 ^ 1074)
  have hmag : x.scaledMag = n.natAbs * 2 ^ 1074 := by
    rw [← natAbs_scaled, hs, Int.natAbs_mul, Int.natAbs_ofNat]
  have htm : x.truncMag = n.natAbs := by
    unfold truncMag
    rw [hmag]
    exact Nat.mul_div_cancel _ (Nat.pow_pos (by decide))
  have hmul : x.trunc * ((2 ^ 1074 : Nat) : Int) = x.scaled := by
    unfold trunc scaled
    rw [htm, hmag]
    split <;> push_cast <;> ring
  rw [hs] at hmul
  exact Int.eq_of_mul_eq_mul_right (ne_of_gt hK) hmul

end Float64

/-! ## Words, truncation and the round-trip test -/

theorem Int32_range (w : Nat) : -2147483648 ≤ Int32 w ∧ Int32 w < 2147483648 := by
  unfold Int32; split <;> omega

theorem Int32_Word32 (n : Int) (h1 : -2147483648 ≤ n) (h2 : n < 2147483648) :
    Int32 (Word32 n) = n := by
  unfold Int32 Word32; split <;> omega

theorem Word32_lt (n : Int) : Word32 n < 4294967296 := by
  unfold Word32; omega

theorem Word32_Int32 (w : Nat) : Word32 (Int32 w) = w % 4294967296 := by
  unfold Int32 Word32; split <;> omega

theorem IsInt_finite (x : Float64) (n : Int) (h : x.IsInt n) : x.isNaN = false := by
  have := h.1
  unfold Float64.isNaN
  have : x.expo ≠ 2047 := by omega
  simp [this]

theorem ofMagnitude_IsInt (n : Int) (h : n.natAbs < 9007199254740992) :
    (Float64.ofMagnitude (decide (n < 0)) n.natAbs).IsInt n := by
  obtain ⟨h1, h2, h3⟩ := Float64.ofMagnitude_spec (decide (n < 0)) n.natAbs h
  refine ⟨h1, ?_⟩
  unfold Float64.scaled
  rw [h2, h3]
  by_cases hn : n < 0
  · have e : ((n.natAbs : Nat) : Int) = -n := by omega
    simp only [hn, decide_True, if_true]
    rw [Nat.cast_mul, e]
    ring
  · have e : ((n.natAbs : Nat) : Int) = n := by omega
    simp only [hn, decide_False, if_false, Bool.false_eq_true]
    rw [Nat.cast_mul, e]

theorem ChangeInt32ToFloat64_IsInt (w : Nat) : (ChangeInt32ToFloat64 w).IsInt (Int32 w) := by
  have := Int32_range w
  exact ofMagnitude_IsInt (Int32 w) (by omega)

theorem ChangeUint32ToFloat64_IsInt (w : Nat) :
    (ChangeUint32ToFloat64 w).IsInt ((w % 4294967296 : Nat) : Int) := by
  have h := ofMagnitude_IsInt ((w % 4294967296 : Nat) : Int) (by omega)
  have hd : decide (((w % 4294967296 : Nat) : Int) < 0) = false := by
    simp only [decide_eq_false_iff_not]; omega
  rw [hd, Int.natAbs_ofNat] at h
  exact h

theorem Truncate_of_IsInt (x : Float64) (n : Int) (h : x.IsInt n) :
    TruncateFloat64ToWord32 x = Word32 n := by
  unfold TruncateFloat64ToWord32
  have := h.1
  rw [if_neg (by omega), Float64.trunc_mul x n h]

theorem Float64Equal_of_IsInt (x y : Float64) (n : Int) (hx : x.IsInt n) (hy : y.IsInt n) :
    Float64Equal x y = true := by
  unfold Float64Equal
  rw [IsInt_finite x n hx, IsInt_finite y n hy]
  rcases Float64.eq_or_zero_of_scaled_eq x y (by rw [hx.2, hy.2]) with ⟨h1, h2⟩ | h
  · simp [h1, h2]
  · simp [h]

theorem isZero_IsInt (x : Float64) (h : x.isZero = true) : x.IsInt 0 := by
  have hz := (Float64.scaledMag_eq_zero_iff x).2 h
  unfold Float64.isZero at h
  simp only [Bool.and_eq_true, beq_iff_eq] at h
  refine ⟨by omega, ?_⟩
  unfold Float64.scaled
  rw [hz]; simp

theorem IsInt_unique (x : Float64) (n m : Int) (hn : x.IsInt n) (hm : x.IsInt m) : n = m := by
  rw [← Float64.trunc_mul x n hn, ← Float64.trunc_mul x m hm]

/-- The round-trip test of the heap-number path succeeds exactly on the floats whose
value is an integer of the signed 32-bit range. -/
theorem roundtrip_iff (x : Float64) :
    Float64Equal x (ChangeInt32ToFloat64 (TruncateFloat64ToWord32 x)) = true ↔
      ∃ n : Int, x.IsInt n ∧ -2147483648 ≤ n ∧ n < 2147483648 := by
  constructor
  · intro h
    generalize TruncateFloat64ToWord32 x = w at h
    have hy := ChangeInt32ToFloat64_IsInt w
    have hr := Int32_range w
    unfold Float64Equal at h
    simp only [Bool.and_eq_true, Bool.or_eq_true, Bool.not_eq_true', decide_eq_true_eq] at h
    rcases h.2 with ⟨hz, _⟩ | heq
    · exact ⟨0, isZero_IsInt x hz, by omega, by omega⟩
    · exact ⟨_, by rw [heq]; exact hy, hr.1, hr.2⟩
  · rintro ⟨n, hn, h1, h2⟩
    rw [Truncate_of_IsInt x n hn]
    have hy := ChangeInt32ToFloat64_IsInt (Word32 n)
    rw [Int32_Word32 n h1 h2] at hy
    exact Float64Equal_of_IsInt x _ n hn hy

/-! ## Bytes of a cell -/

namespace Memory

theorem load_congr (m1 m2 : Memory) (size : Nat) : ∀ address : Nat,
    (∀ a, address ≤ a → a < address + size → m1 a = m2 a) →
    load m1 address size = load m2 address size := by
  induction size with
  | zero => intro _ _; rfl
  | succ n ih =>
    intro address h
    show m1 address % 256 + 256 * load m1 (address + 1) n
      = m2 address % 256 + 256 * load m2 (address + 1) n
    rw [h address (le_refl _) (by omega), ih (address + 1) (fun a h1 h2 => h a (by omega) (by omega))]

theorem load_lt (mem : Memory) (size : Nat) : ∀ address : Nat,
    load mem address size < 256 ^ size := by
  induction size with
  | zero => intro _; show 0 < 256 ^ 0; simp
  | succ n ih =>
    intro address
    show mem address % 256 + 256 * load mem (address + 1) n < 256 ^ (n + 1)
    have h := ih (address + 1)
    have hb : mem address % 256 < 256 := Nat.mod_lt _ (by decide)
    rw [pow_succ]
    omega

theorem store_other (mem : Memory) (size : Nat) : ∀ (address value a : Nat),
    (a < address ∨ address + size ≤ a) → store mem address size value a = mem a := by
  induction size with
  | zero => intro _ _ _ _; rfl
  | succ n ih =>
    intro address value a h
    show (if a = address then value % 256 else store mem (address + 1) n (value / 256) a) = mem a
    rw [if_neg (by omega)]
    exact ih (address + 1) (value / 256) a (by omega)

theorem load_store (mem : Memory) (size : Nat) : ∀ (address value : Nat),
    load (store mem address size value) address size = value % 256 ^ size := by
  induction size with
  | zero => intro _ _; show 0 = _ % 256 ^ 0; simp [Nat.mod_one]
  | succ n ih =>
    intro address value
    show store mem address (n + 1) value address % 256
      + 256 * load (store mem address (n + 1) value) (address + 1) n = value % 256 ^ (n + 1)
    have h1 : store mem address (n + 1) value address = value % 256 := by
      show (if address = address then value % 256 else _) = _
      rw [if_pos rfl]
    have h2 : load (store mem address (n + 1) value) (address + 1) n
        = load (store mem (address + 1) n (value / 256)) (address + 1) n := by
      apply load_congr
      intro a ha _
      show (if a = address then value % 256 else store mem (address + 1) n (value / 256) a) = _
      rw [if_neg (by omega)]
    rw [h1, h2, ih (address + 1) (value / 256), Nat.mod_mod, pow_succ, Nat.mul_comm (256 ^ n) 256,
      Nat.mod_mul]

end Memory

theorem Convert_Smi (context : Context) (tagged : Tagged) (k : Int)
    (h : context.ToNumber tagged = .ok (.Smi k)) :
    ConvertTaggedAtomicIndexToWord32 context tagged = .ok (Word32 k, .Smi k) := by
  unfold ConvertTaggedAtomicIndexToWord32
  rw [h]
  rfl

theorem Convert_HeapNumber_ok (context : Context) (tagged : Tagged) (f : Float64) (n : Int)
    (h : context.ToNumber tagged = .ok (.HeapNumber f)) (hn : f.IsInt n)
    (h1 : -2147483648 ≤ n) (h2 : n < 2147483648) :
    ConvertTaggedAtomicIndexToWord32 context tagged = .ok (Word32 n, .HeapNumber f) := by
  unfold ConvertTaggedAtomicIndexToWord32
  rw [h]
  simp only
  rw [if_pos ((roundtrip_iff f).2 ⟨n, hn, h1, h2⟩), Truncate_of_IsInt f n hn]

theorem Convert_HeapNumber_error (context : Context) (tagged : Tagged) (f : Float64)
    (h : context.ToNumber tagged = .ok (.HeapNumber f))
    (hn : ¬ ∃ n : Int, f.IsInt n ∧ -2147483648 ≤ n ∧ n < 2147483648) :
    ConvertTaggedAtomicIndexToWord32 context tagged = .error .kInvalidAtomicAccessIndexError := by
  unfold ConvertTaggedAtomicIndexToWord32
  rw [h]
  simp only
  rw [if_neg (fun hh => hn ((roundtrip_iff f).1 hh))]

theorem Validate_Word32_iff (n : Int) (L : Nat) (hL : L < 2147483648)
    (h1 : -2147483648 ≤ n) (h2 : n < 2147483648) :
    (0 ≤ n ∧ n < L → ValidateAtomicIndex (Word32 n) L = .ok ()) ∧
    (¬ (0 ≤ n ∧ n < L) →
      ValidateAtomicIndex (Word32 n) L = .error .kInvalidAtomicAccessIndexError) := by
  unfold ValidateAtomicIndex Uint32LessThan Word32
  constructor
  · intro h
    rw [if_pos]
    simp only [decide_eq_true_eq]
    omega
  · intro h
    rw [if_neg]
    simp only [decide_eq_true_eq]
    omega

/-- The two index steps on a number `x`, for a length word `L < 2^31`: both pass
exactly when `x` is an integer with `0 ≤ x ≤ L - 1`; otherwise one of them throws
the invalid-index error. -/
theorem index_steps (context : Context) (tagged : Tagged) (x : Number)
    (L : Nat) (hL : L < 2147483648) (hx : context.ToNumber tagged = .ok x) (hwf : x.WF) :
    ((∃ n : Int, x.IsInt n ∧ 0 ≤ n ∧ n ≤ (L : Int) - 1) →
      ∃ w : Nat, ConvertTaggedAtomicIndexToWord32 context tagged = .ok (w, x) ∧
        ValidateAtomicIndex w L = .ok ()) ∧
    (¬ (∃ n : Int, x.IsInt n ∧ 0 ≤ n ∧ n ≤ (L : Int) - 1) →
      ConvertTaggedAtomicIndexToWord32 context tagged = .error .kInvalidAtomicAccessIndexError ∨
      ∃ w : Nat, ConvertTaggedAtomicIndexToWord32 context tagged = .ok (w, x) ∧
        ValidateAtomicIndex w L = .error .kInvalidAtomicAccessIndexError) := by
  constructor
  · rintro ⟨n, hn, h0, h1⟩
    cases x with
    | Smi k =>
      have hk : k = n := hn
      subst hk
      exact ⟨_, Convert_Smi context tagged k hx,
        (Validate_Word32_iff k L hL (by omega) (by omega)).1 ⟨h0, by omega⟩⟩
    | HeapNumber f =>
      exact ⟨_, Convert_HeapNumber_ok context tagged f n hx hn (by omega) (by omega),
        (Validate_Word32_iff n L hL (by omega) (by omega)).1 ⟨h0, by omega⟩⟩
  · intro hno
    cases x with
    | Smi k =>
      have hk : kSmiMinValue ≤ k ∧ k ≤ kSmiMaxValue := hwf
      unfold kSmiMinValue kSmiMaxValue at hk
      refine Or.inr ⟨_, Convert_Smi context tagged k hx,
        (Validate_Word32_iff k L hL (by omega) (by omega)).2 ?_⟩
      intro hh
      exact hno ⟨k, rfl, hh.1, by omega⟩
    | HeapNumber f =>
      by_cases hr : ∃ n : Int, f.IsInt n ∧ -2147483648 ≤ n ∧ n < 2147483648
      · obtain ⟨n, hn, h1, h2⟩ := hr
        refine Or.inr ⟨_, Convert_HeapNumber_ok context tagged f n hx hn h1 h2,
          (Validate_Word32_iff n L hL h1 h2).2 ?_⟩
        intro hh
        exact hno ⟨n, hn, hh.1, by omega⟩
      · exact Or.inl (Convert_HeapNumber_error context tagged f hx hr)

/-- C2, as the code has it: for a heap-number index `x`, normalization on its own
succeeds if and only if `x` is finite, equal to its own truncation and inside the
signed 32-bit range `[-2^31, 2^31 - 1]`, and it fails with the
invalid-atomic-access-index error otherwise; `2.0` gives index 2, `2.5` and NaN
fail, and `-1` passes normalization with the word of `-1`. -/
theorem C2_normalization_succeeds_iff_int32 (context : Context) (tagged : Tagged) (x : Float64)
    (hx : context.ToNumber tagged = .ok (.HeapNumber x)) :
    ((x.IsIntegral ∧ -2147483648 ≤ x.trunc ∧ x.trunc ≤ 2147483647) →
      ConvertTaggedAtomicIndexToWord32 context tagged = .ok (Word32 x.trunc, .HeapNumber x)) ∧
    (¬ (x.IsIntegral ∧ -2147483648 ≤ x.trunc ∧ x.trunc ≤ 2147483647) →
      ConvertTaggedAtomicIndexToWord32 context tagged = .error .kInvalidAtomicAccessIndexError) ∧
    (x = f64_2 → ConvertTaggedAtomicIndexToWord32 context tagged = .ok (2, .HeapNumber x)) ∧
    (x = f64_2_5 →
      ConvertTaggedAtomicIndexToWord32 context tagged = .error .kInvalidAtomicAccessIndexError) ∧
    (x = f64_NaN →
      ConvertTaggedAtomicIndexToWord32 context tagged = .error .kInvalidAtomicAccessIndexError) ∧
    (x = f64_neg1 →
      ConvertTaggedAtomicIndexToWord32 context tagged = .ok (4294967295, .HeapNumber x)) := by
  have hpos : (x.IsIntegral ∧ -2147483648 ≤ x.trunc ∧ x.trunc ≤ 2147483647) →
      ConvertTaggedAtomicIndexToWord32 context tagged
        = .ok (Word32 x.trunc, .HeapNumber x) := by
    rintro ⟨hi, h1, h2⟩
    exact Convert_HeapNumber_ok context tagged x x.trunc hx hi h1 (by omega)
  have hneg : ¬ (x.IsIntegral ∧ -2147483648 ≤ x.trunc ∧ x.trunc ≤ 2147483647) →
      ConvertTaggedAtomicIndexToWord32 context tagged
        = .error .kInvalidAtomicAccessIndexError := by
    intro hno
    refine Convert_HeapNumber_error context tagged x hx ?_
    rintro ⟨n, hn, h1, h2⟩
    have ht := Float64.trunc_mul x n hn
    refine hno ⟨?_, by omega, by omega⟩
    unfold Float64.IsIntegral
    rw [ht]
    exact hn
  refine ⟨hpos, hneg, ?_, ?_, ?_, ?_⟩
  · intro h2
    subst h2
    exact hpos (by decide)
  · intro h2
    subst h2
    exact hneg (by decide)
  · intro h2
    subst h2
    exact hneg (by decide)
  · intro h2
    subst h2
    exact hpos (by decide)

/-- Witness of C2: the heap number `2.0` is normalized to the index 2. -/
theorem C2_normalization_succeeds_iff_int32_witness :
    Context.sample.ToNumber (.HeapNumber f64_2) = .ok (.HeapNumber f64_2) ∧
    ConvertTaggedAtomicIndexToWord32 Context.sample (.HeapNumber f64_2)
      = .ok (2, .HeapNumber f64_2) :=
  ⟨rfl, (C2_normalization_succeeds_iff_int32 Context.sample (.HeapNumber f64_2) f64_2 rfl).2.2.1
    rfl⟩

/-- C2 as stated fails in both directions: `-1.0` is negative, yet normalization on
its own succeeds (with the word of `-1`) instead of throwing; and `2^31` is
non-negative, finite and equal to its own truncation, yet normalization fails. -/
theorem C2_counterexample :
    (¬ f64_neg1.IsNonNegative ∧
      ConvertTaggedAtomicIndexToWord32 Context.sample (.HeapNumber f64_neg1)
        = .ok (4294967295, .HeapNumber f64_neg1)) ∧
    (f64_2p31.IsNonNegative ∧ f64_2p31.IsIntegral ∧
      ConvertTaggedAtomicIndexToWord32 Context.sample (.HeapNumber f64_2p31)
        = .error .kInvalidAtomicAccessIndexError) := by
  decide

/-- C10: whenever `ConvertTaggedAtomicIndexToWord32` succeeds on a number `x` with
word `w`, the value of `x` is exactly the signed reading of `w`, which is also the
value of `w` converted back to floating point; and `2^32`, `2^32 + 1` and `2^31`
are rejected, not wrapped to 0, 1 or `-2^31`. -/
theorem C10_result_equals_input (context : Context) (tagged : Tagged) (w : Nat) (x : Number)
    (hwf : x.WF) (h : ConvertTaggedAtomicIndexToWord32 context tagged = .ok (w, x)) :
    x.IsInt (Int32 w) ∧ (ChangeInt32ToFloat64 w).IsInt (Int32 w) ∧
    ConvertTaggedAtomicIndexToWord32 Context.sample (.HeapNumber f64_2p32)
      = .error .kInvalidAtomicAccessIndexError ∧
    ConvertTaggedAtomicIndexToWord32 Context.sample (.HeapNumber f64_2p32_1)
      = .error .kInvalidAtomicAccessIndexError ∧
    ConvertTaggedAtomicIndexToWord32 Context.sample (.HeapNumber f64_2p31)
      = .error .kInvalidAtomicAccessIndexError := by
  refine ⟨?_, ChangeInt32ToFloat64_IsInt w, by decide, by decide, by decide⟩
  unfold ConvertTaggedAtomicIndexToWord32 at h
  split at h
  · cases h
  · rename_i number_index hnum
    split at h
    · rename_i k
      simp only [Except.ok.injEq, Prod.mk.injEq] at h
      obtain ⟨hw, hxe⟩ := h
      subst hxe
      subst hw
      have hk : kSmiMinValue ≤ k ∧ k ≤ kSmiMaxValue := hwf
      unfold kSmiMinValue kSmiMaxValue at hk
      show k = Int32 (SmiToWord32 k)
      unfold SmiToWord32
      rw [Int32_Word32 k (by omega) (by omega)]
    · rename_i f
      simp only at h
      split at h
      · rename_i heq
        simp only [Except.ok.injEq, Prod.mk.injEq] at h
        obtain ⟨hw, hxe⟩ := h
        subst hxe
        subst hw
        obtain ⟨n, hn, h1, h2⟩ := (roundtrip_iff f).1 heq
        rw [Truncate_of_IsInt f n hn, Int32_Word32 n h1 h2]
        exact hn
      · cases h

/-- Witness of C10: conversion of the heap number `2.0` gives the word 2, whose signed
reading is the value of the input. -/
theorem C10_result_equals_input_witness :
    (Number.HeapNumber f64_2).WF ∧
    ConvertTaggedAtomicIndexToWord32 Context.sample (.HeapNumber f64_2)
      = .ok (2, .HeapNumber f64_2) ∧
    (Number.HeapNumber f64_2).IsInt (Int32 2) :=
  ⟨trivial, by decide,
    (C10_result_equals_input Context.sample (.HeapNumber f64_2) 2 (.HeapNumber f64_2) trivial
      (by decide)).1⟩

/-! ## The shared steps of the three builtins -/

theorem Int32LessThan_instance_type (k : ElementKind) :
    Int32LessThan k.instance_type FIXED_FLOAT32_ARRAY_TYPE = k.eligible := by
  cases k <;> decide

theorem ValidateSharedTypedArray_typed (a : JSTypedArray) :
    ValidateSharedTypedArray (.JSTypedArray a) =
      if a.buffer.is_shared = true ∧ a.elements.eligible = true then
        .ok (a.elements.instance_type, a.backing_address)
      else .error .kNotIntegerSharedTypedArrayError := by
  unfold ValidateSharedTypedArray
  simp only [TaggedIsSmi, LoadInstanceType, Int32LessThan_instance_type,
    JSTypedArray.backing_address]
  cases a.buffer.is_shared <;> cases a.elements.eligible <;> simp

theorem ValidateSharedTypedArray_other (tagged : Tagged)
    (h : ∀ a : JSTypedArray, tagged ≠ .JSTypedArray a) :
    ValidateSharedTypedArray tagged = .error .kNotIntegerSharedTypedArrayError := by
  unfold ValidateSharedTypedArray
  cases tagged with
  | Smi n => simp [TaggedIsSmi]
  | HeapNumber f =>
    simp [TaggedIsSmi, LoadInstanceType, HEAP_NUMBER_TYPE, JS_TYPED_ARRAY_TYPE]
  | JSTypedArray a => exact absurd rfl (h a)
  | JSArrayBuffer b =>
    simp [TaggedIsSmi, LoadInstanceType, JS_ARRAY_BUFFER_TYPE, JS_TYPED_ARRAY_TYPE]
  | HeapObject t ht => simp [TaggedIsSmi, LoadInstanceType, ht]

theorem ValidateSharedTypedArray_ok (a : JSTypedArray) (hs : a.buffer.is_shared = true)
    (hk : a.elements.eligible = true) :
    ValidateSharedTypedArray (.JSTypedArray a) = .ok (a.elements.instance_type, a.backing_address) := by
  rw [ValidateSharedTypedArray_typed, if_pos ⟨hs, hk⟩]

theorem ValidateSharedTypedArray_inv (tagged : Tagged) (r : Nat × Nat)
    (h : ValidateSharedTypedArray tagged = .ok r) :
    ∃ a : JSTypedArray, tagged = .JSTypedArray a ∧ a.buffer.is_shared = true ∧
      a.elements.eligible = true ∧ r = (a.elements.instance_type, a.backing_address) := by
  by_cases hno : ∀ a : JSTypedArray, tagged ≠ .JSTypedArray a
  · rw [ValidateSharedTypedArray_other tagged hno] at h
    cases h
  · push_neg at hno
    obtain ⟨a, ha⟩ := hno
    subst ha
    rw [ValidateSharedTypedArray_typed] at h
    split at h
    · rename_i hc
      simp only [Except.ok.injEq] at h
      exact ⟨a, rfl, hc.1, hc.2, h.symm⟩
    · cases h

theorem ValidateSharedTypedArray_error (tagged : Tagged) (e : Error)
    (h : ValidateSharedTypedArray tagged = .error e) : e = .kNotIntegerSharedTypedArrayError := by
  by_cases hno : ∀ a : JSTypedArray, tagged ≠ .JSTypedArray a
  · rw [ValidateSharedTypedArray_other tagged hno] at h
    cases h
    rfl
  · push_neg at hno
    obtain ⟨a, ha⟩ := hno
    subst ha
    rw [ValidateSharedTypedArray_typed] at h
    split at h
    · cases h
    · cases h
      rfl

theorem ValidateRequest_inv (context : Context) (array index : Tagged) (r : Nat × Nat × Nat)
    (h : ValidateRequest context array index = .ok r) :
    ∃ (a : JSTypedArray) (number_index : Number), array = .JSTypedArray a ∧
      a.buffer.is_shared = true ∧ a.elements.eligible = true ∧
      ConvertTaggedAtomicIndexToWord32 context index = .ok (r.2.2, number_index) ∧
      ValidateAtomicIndex r.2.2 (TruncateTaggedToWord32 a.length) = .ok () ∧
      r = (a.elements.instance_type, a.backing_address, r.2.2) := by
  unfold ValidateRequest at h
  split at h
  · cases h
  · rename_i instance_type backing_store hv
    obtain ⟨a, ha, hs, hk, hr⟩ := ValidateSharedTypedArray_inv array _ hv
    subst ha
    split at h
    · cases h
    · rename_i index_word32 number_index hc
      split at h
      · cases h
      · rename_i hb
        simp only [Except.ok.injEq] at h
        subst h
        simp only [Prod.mk.injEq] at hr
        refine ⟨a, number_index, rfl, hs, hk, hc, hb, ?_⟩
        simp only [hr.1, hr.2]

theorem ValidateRequest_ok (context : Context) (a : JSTypedArray) (index : Tagged) (w : Nat)
    (number_index : Number) (hs : a.buffer.is_shared = true) (hk : a.elements.eligible = true)
    (hc : ConvertTaggedAtomicIndexToWord32 context index = .ok (w, number_index))
    (hb : ValidateAtomicIndex w (TruncateTaggedToWord32 a.length) = .ok ()) :
    ValidateRequest context (.JSTypedArray a) index
      = .ok (a.elements.instance_type, a.backing_address, w) := by
  unfold ValidateRequest
  rw [ValidateSharedTypedArray_ok a hs hk]
  simp only [hc, LoadLength, hb]

theorem ValidateRequest_error (context : Context) (array index : Tagged) (e : Error)
    (h : ValidateRequest context array index = .error e) (mem : Memory) (value : Tagged) :
    AtomicsLoad context mem array index = (.error e, mem) ∧
    AtomicsStore context mem array index value = (.error e, mem) ∧
    AtomicsExchange context mem array index value = (.error e, mem) := by
  unfold ValidateRequest at h
  unfold AtomicsLoad AtomicsStore AtomicsExchange
  split at h
  · rename_i e1 hv
    simp only [Except.error.injEq] at h
    subst h
    simp only [hv, and_self]
  · rename_i instance_type backing_store hv
    split at h
    · rename_i e1 hc
      simp only [Except.error.injEq] at h
      subst h
      simp only [hv, hc, and_self]
    · rename_i index_word32 number_index hc
      split at h
      · rename_i e1 hb
        simp only [Except.error.injEq] at h
        subst h
        simp only [hv, hc, hb, and_self]
      · cases h

theorem AtomicsLoad_valid (context : Context) (mem : Memory) (a : JSTypedArray) (index : Tagged)
    (r : Nat × Nat × Nat) (h : ValidateRequest context (.JSTypedArray a) index = .ok r) :
    AtomicsLoad context mem (.JSTypedArray a) index = (.ok (a.cell_value mem r.2.2), mem) := by
  obtain ⟨a2, num, ha, hs, hk, hc, hb, _⟩ := ValidateRequest_inv context _ index r h
  cases ha
  unfold AtomicsLoad
  rw [ValidateSharedTypedArray_ok a hs hk]
  simp only [hc, LoadLength, hb]
  obtain ⟨buf, k, off, len⟩ := a
  cases k <;> first
    | (simp [ElementKind.instance_type, FIXED_INT8_ARRAY_TYPE, FIXED_UINT8_ARRAY_TYPE,
        FIXED_INT16_ARRAY_TYPE, FIXED_UINT16_ARRAY_TYPE, FIXED_INT32_ARRAY_TYPE,
        FIXED_UINT32_ARRAY_TYPE, FIRST_FIXED_TYPED_ARRAY_TYPE, JSTypedArray.cell_value,
        ElementKind.tag, ElementKind.machineType, ElementKind.offset]; done)
    | cases hk

theorem AtomicsStore_valid (context : Context) (mem : Memory) (a : JSTypedArray)
    (index value : Tagged) (r : Nat × Nat × Nat)
    (h : ValidateRequest context (.JSTypedArray a) index = .ok r) :
    AtomicsStore context mem (.JSTypedArray a) index value =
      match context.ToInteger value with
      | .error e => (.error e, mem)
      | .ok value_integer =>
        (.ok value_integer, mem.store (a.cell_address r.2.2) a.elements.size
          (TruncateTaggedToWord32 value_integer)) := by
  obtain ⟨a2, num, ha, hs, hk, hc, hb, _⟩ := ValidateRequest_inv context _ index r h
  cases ha
  unfold AtomicsStore
  rw [ValidateSharedTypedArray_ok a hs hk]
  simp only [hc, LoadLength, hb]
  cases context.ToInteger value with
  | error e => rfl
  | ok value_integer =>
    obtain ⟨buf, k, off, len⟩ := a
    cases k <;> first
      | (simp [ElementKind.instance_type, FIXED_INT8_ARRAY_TYPE, FIXED_UINT8_ARRAY_TYPE,
          FIXED_INT16_ARRAY_TYPE, FIXED_UINT16_ARRAY_TYPE, FIXED_INT32_ARRAY_TYPE,
          FIXED_UINT32_ARRAY_TYPE, FIRST_FIXED_TYPED_ARRAY_TYPE, JSTypedArray.cell_address,
          ElementKind.size, ElementKind.offset, AtomicStore, MachineRepresentation.size]; done)
      | cases hk

theorem AtomicsExchange_valid (context : Context) (mem : Memory) (a : JSTypedArray)
    (index value : Tagged) (r : Nat × Nat × Nat)
    (h : ValidateRequest context (.JSTypedArray a) index = .ok r) :
    AtomicsExchange context mem (.JSTypedArray a) index value =
      match context.ToInteger value with
      | .error e => (.error e, mem)
      | .ok value_integer =>
        (.ok (a.cell_value mem r.2.2), mem.store (a.cell_address r.2.2) a.elements.size
          (TruncateTaggedToWord32 value_integer)) := by
  obtain ⟨a2, num, ha, hs, hk, hc, hb, _⟩ := ValidateRequest_inv context _ index r h
  cases ha
  unfold AtomicsExchange
  rw [ValidateSharedTypedArray_ok a hs hk]
  simp only [hc, LoadLength, hb]
  cases context.ToInteger value with
  | error e => rfl
  | ok value_integer =>
    obtain ⟨buf, k, off, len⟩ := a
    cases k <;> first
      | (simp [ElementKind.instance_type, FIXED_INT8_ARRAY_TYPE, FIXED_UINT8_ARRAY_TYPE,
          FIXED_INT16_ARRAY_TYPE, FIXED_UINT16_ARRAY_TYPE, FIXED_INT32_ARRAY_TYPE,
          FIXED_UINT32_ARRAY_TYPE, FIRST_FIXED_TYPED_ARRAY_TYPE, JSTypedArray.cell_address,
          JSTypedArray.cell_value, ElementKind.tag, ElementKind.machineType, AtomicLoad,
          ElementKind.size, ElementKind.offset, AtomicExchange, ExchangeResult, MachineType.size]; done)
      | cases hk

/-! ## The value of a cell -/

theorem Extend_1 (signed : Bool) (raw : Nat) (h : raw < 256) :
    Int32 (Extend signed 1 raw) =
      if signed = true ∧ 128 ≤ raw then (raw : Int) - 256 else (raw : Int) := by
  unfold Extend Int32
  have e1 : 2 ^ (8 * 1 - 1) = 128 := by norm_num
  have e2 : 2 ^ (8 * 1) = 256 := by norm_num
  rw [e1, e2]
  cases signed
  · simp only [Bool.false_and, Bool.false_eq_true, false_and, if_false]
    split <;> omega
  · simp only [Bool.true_and, decide_eq_true_eq, true_and]
    split <;> split <;> omega

theorem Extend_2 (signed : Bool) (raw : Nat) (h : raw < 65536) :
    Int32 (Extend signed 2 raw) =
      if signed = true ∧ 32768 ≤ raw then (raw : Int) - 65536 else (raw : Int) := by
  unfold Extend Int32
  have e1 : 2 ^ (8 * 2 - 1) = 32768 := by norm_num
  have e2 : 2 ^ (8 * 2) = 65536 := by norm_num
  rw [e1, e2]
  cases signed
  · simp only [Bool.false_and, Bool.false_eq_true, false_and, if_false]
    split <;> omega
  · simp only [Bool.true_and, decide_eq_true_eq, true_and]
    split <;> split <;> omega

theorem Extend_4 (signed : Bool) (raw : Nat) (h : raw < 4294967296) :
    Extend signed 4 raw = raw := by
  unfold Extend
  have e1 : 2 ^ (8 * 4 - 1) = 2147483648 := by norm_num
  have e2 : 2 ^ (8 * 4) = 4294967296 := by norm_num
  rw [e1, e2]
  split <;> omega

theorem truncate_to_kind_raw (k : ElementKind) (raw : Nat) (h : raw < 256 ^ k.size) :
    k.truncate_to_kind (raw : Int) =
      if k.signed = true ∧ 2 ^ (k.bits - 1) ≤ raw then (raw : Int) - ((2 ^ k.bits : Nat) : Int)
      else (raw : Int) := by
  unfold ElementKind.truncate_to_kind
  have hb : 256 ^ k.size = 2 ^ k.bits := by cases k <;> rfl
  rw [hb] at h
  have hmod : (raw : Int) % ((2 ^ k.bits : Nat) : Int) = (raw : Int) := by
    apply Int.emod_eq_of_lt
    · omega
    · exact_mod_cast h
  simp only [hmod]
  cases k.signed
  · simp
  · simp only [Bool.true_and, decide_eq_true_eq, true_and]
    congr 1
    rw [Nat.cast_le]

theorem tag_Extend_IsInt (k : ElementKind) (hk : k.eligible = true) (raw : Nat)
    (h : raw < 256 ^ k.size) :
    (k.tag (Extend k.machineType.IsSigned k.machineType.size raw)).IsInt
      (k.truncate_to_kind (raw : Int)) := by
  rw [truncate_to_kind_raw k raw h]
  cases k
  case Float32 => cases hk
  case Float64 => cases hk
  case Uint8Clamped => cases hk
  case Int8 =>
    have h2 : raw < 256 := h
    show Int32 (Extend true 1 raw) = _
    rw [Extend_1 true raw h2]
    rfl
  case Uint8 =>
    have h2 : raw < 256 := h
    show Int32 (Extend false 1 raw) = _
    rw [Extend_1 false raw h2]
    simp [ElementKind.signed]
  case Int16 =>
    have h2 : raw < 65536 := h
    show Int32 (Extend true 2 raw) = _
    rw [Extend_2 true raw h2]
    rfl
  case Uint16 =>
    have h2 : raw < 65536 := h
    show Int32 (Extend false 2 raw) = _
    rw [Extend_2 false raw h2]
    simp [ElementKind.signed]
  case Int32 =>
    have h2 : raw < 4294967296 := h
    show (ChangeInt32ToTagged (Extend true 4 raw)).IsInt _
    rw [Extend_4 true raw h2]
    have hv : Int32 raw = if ElementKind.Int32.signed = true ∧ 2 ^ (ElementKind.Int32.bits - 1) ≤ raw
        then (raw : Int) - ((2 ^ ElementKind.Int32.bits : Nat) : Int) else (raw : Int) := by
      unfold Int32
      simp only [ElementKind.signed, ElementKind.bits, true_and]
      norm_num
      split <;> split <;> omega
    rw [← hv]
    unfold ChangeInt32ToTagged
    split
    · rfl
    · exact ChangeInt32ToFloat64_IsInt raw
  case Uint32 =>
    have h2 : raw < 4294967296 := h
    show (ChangeUint32ToTagged (Extend false 4 raw)).IsInt _
    rw [Extend_4 false raw h2]
    simp only [ElementKind.signed, Bool.false_eq_true, false_and, if_false]
    have hm : raw % 4294967296 = raw := Nat.mod_eq_of_lt h2
    unfold ChangeUint32ToTagged
    split
    · show ((raw % 4294967296 : Nat) : Int) = raw
      rw [hm]
    · have := ChangeUint32ToFloat64_IsInt raw
      rw [hm] at this
      exact this

theorem machineType_size (k : ElementKind) (hk : k.eligible = true) :
    k.machineType.size = k.size := by
  cases k <;> first | rfl | cases hk

theorem truncate_to_kind_mod (k : ElementKind) (hk : k.eligible = true) (v : Int) :
    k.truncate_to_kind (((Word32 v % 256 ^ k.size : Nat)) : Int) = k.truncate_to_kind v := by
  have hres : (((Word32 v % 256 ^ k.size : Nat)) : Int) % ((2 ^ k.bits : Nat) : Int)
      = v % ((2 ^ k.bits : Nat) : Int) := by
    unfold Word32
    cases k
    case Float32 => cases hk
    case Float64 => cases hk
    case Uint8Clamped => cases hk
    all_goals
      simp only [ElementKind.size, ElementKind.bits]
      norm_num
      omega
  unfold ElementKind.truncate_to_kind
  simp only [hres]

theorem truncate_to_kind_representable (k : ElementKind) (v : Int) (h : k.representable v) :
    k.truncate_to_kind v = v := by
  unfold ElementKind.representable at h
  unfold ElementKind.truncate_to_kind
  cases k <;> simp only [ElementKind.signed, ElementKind.bits, if_true, if_false,
    Bool.false_eq_true, Bool.true_and, Bool.false_and, decide_eq_true_eq] at h ⊢ <;>
    norm_num at h ⊢ <;> (try split) <;> omega

theorem representable_truncate_to_kind (k : ElementKind) (v : Int) :
    k.representable (k.truncate_to_kind v) := by
  unfold ElementKind.representable
  unfold ElementKind.truncate_to_kind
  cases k <;> simp only [ElementKind.signed, ElementKind.bits, if_true, if_false,
    Bool.false_eq_true, Bool.true_and, Bool.false_and, decide_eq_true_eq] <;>
    norm_num <;> (try split) <;> omega

theorem TruncateTaggedToWord32_IsInt (x : Number) (v : Int) (h : x.IsInt v) :
    TruncateTaggedToWord32 x = Word32 v := by
  cases x with
  | Smi k =>
    have hk : k = v := h
    subst hk
    rfl
  | HeapNumber f => exact Truncate_of_IsInt f v h

theorem Number_IsInt_unique (x : Number) (n m : Int) (hn : x.IsInt n) (hm : x.IsInt m) :
    n = m := by
  cases x with
  | Smi k =>
    have h1 : k = n := hn
    have h2 : k = m := hm
    omega
  | HeapNumber f => exact IsInt_unique f n m hn hm

theorem cell_value_IsInt (a : JSTypedArray) (hk : a.elements.eligible = true) (mem : Memory)
    (w : Nat) :
    (a.cell_value mem w).IsInt
      (a.elements.truncate_to_kind ((mem.load (a.cell_address w) a.elements.size : Nat) : Int)) := by
  have h := tag_Extend_IsInt a.elements hk (mem.load (a.cell_address w) a.elements.size)
    (Memory.load_lt mem _ _)
  unfold JSTypedArray.cell_value AtomicLoad
  rw [machineType_size a.elements hk] at h ⊢
  exact h

/-- After the word of the integer `v` is written to a cell, the cell reads as `v`
wrapped into the range of the kind. -/
theorem cell_value_store (a : JSTypedArray) (hk : a.elements.eligible = true) (mem : Memory)
    (w : Nat) (x : Number) (v : Int) (hx : x.IsInt v) :
    (a.cell_value (mem.store (a.cell_address w) a.elements.size (TruncateTaggedToWord32 x)) w).IsInt
      (a.elements.truncate_to_kind v) := by
  rw [TruncateTaggedToWord32_IsInt x v hx]
  have h := cell_value_IsInt a hk (mem.store (a.cell_address w) a.elements.size (Word32 v)) w
  rw [Memory.load_store, truncate_to_kind_mod _ hk] at h
  exact h

/-! ## The builtins -/

/-- C1: for a view of element count `L < 2^31` and a numeric index `x`,
`ConvertTaggedAtomicIndexToWord32` followed by `ValidateAtomicIndex` succeeds if and
only if `x` is an integer with `0 ≤ x ≤ L - 1`, and in every other case (`x = L`,
larger, negative, fractional, not finite) the outcome is the
invalid-atomic-access-index error; so it is in `AtomicsLoad`, `AtomicsStore` and
`AtomicsExchange` on a shared view of an eligible kind and length `L`; and a word
whose signed reading is negative fails the one unsigned comparison of the bounds
check. -/
theorem C1_index_accepted_iff_in_bounds (context : Context) (tagged : Tagged) (x : Number)
    (L : Nat) (hL : L < 2147483648) (hx : context.ToNumber tagged = .ok x) (hwf : x.WF) :
    ((∃ n : Int, x.IsInt n ∧ 0 ≤ n ∧ n ≤ (L : Int) - 1) →
      (ConvertTaggedAtomicIndexToWord32 context tagged >>= fun r => ValidateAtomicIndex r.1 L)
        = .ok ()) ∧
    (¬ (∃ n : Int, x.IsInt n ∧ 0 ≤ n ∧ n ≤ (L : Int) - 1) →
      (ConvertTaggedAtomicIndexToWord32 context tagged >>= fun r => ValidateAtomicIndex r.1 L)
        = .error .kInvalidAtomicAccessIndexError) ∧
    (∀ index_word : Nat, index_word < 4294967296 → Int32 index_word < 0 →
      ValidateAtomicIndex index_word L = .error .kInvalidAtomicAccessIndexError) ∧
    (∀ (mem : Memory) (a : JSTypedArray) (value : Tagged), a.buffer.is_shared = true →
      a.elements.eligible = true → a.length.IsInt (L : Int) →
      ((∃ n : Int, x.IsInt n ∧ 0 ≤ n ∧ n ≤ (L : Int) - 1) →
        ∃ r : Number, AtomicsLoad context mem (.JSTypedArray a) tagged = (.ok r, mem)) ∧
      (¬ (∃ n : Int, x.IsInt n ∧ 0 ≤ n ∧ n ≤ (L : Int) - 1) →
        AtomicsLoad context mem (.JSTypedArray a) tagged
          = (.error .kInvalidAtomicAccessIndexError, mem) ∧
        AtomicsStore context mem (.JSTypedArray a) tagged value
          = (.error .kInvalidAtomicAccessIndexError, mem) ∧
        AtomicsExchange context mem (.JSTypedArray a) tagged value
          = (.error .kInvalidAtomicAccessIndexError, mem))) := by
  obtain ⟨hyes, hno⟩ := index_steps context tagged x L hL hx hwf
  refine ⟨?_, ?_, ?_, ?_⟩
  · intro hp
    obtain ⟨w, hc, hb⟩ := hyes hp
    rw [hc]
    exact hb
  · intro hp
    rcases hno hp with hc | ⟨w, hc, hb⟩
    · rw [hc]
      rfl
    · rw [hc]
      exact hb
  · intro w hw hneg
    unfold Int32 at hneg
    unfold ValidateAtomicIndex Uint32LessThan
    rw [if_neg]
    simp only [decide_eq_true_eq]
    split at hneg <;> omega
  · intro mem a value hs hk hlen
    have hlw : TruncateTaggedToWord32 a.length = L := by
      rw [TruncateTaggedToWord32_IsInt a.length L hlen]
      unfold Word32
      omega
    constructor
    · intro hp
      obtain ⟨w, hc, hb⟩ := hyes hp
      rw [← hlw] at hb
      exact ⟨_, AtomicsLoad_valid context mem a tagged _ (ValidateRequest_ok context a tagged w x
        hs hk hc hb)⟩
    · intro hp
      have hreq : ValidateRequest context (.JSTypedArray a) tagged
          = .error .kInvalidAtomicAccessIndexError := by
        unfold ValidateRequest
        rw [ValidateSharedTypedArray_ok a hs hk]
        rcases hno hp with hc | ⟨w, hc, hb⟩
        · simp only [hc]
        · rw [← hlw] at hb
          simp only [hc, LoadLength, hb]
      exact ValidateRequest_error context _ tagged _ hreq mem value

/-- Witness of C1: on the sample collaborator the Smi index 3 is accepted for
length 4. -/
theorem C1_index_accepted_iff_in_bounds_witness :
    (4 : Nat) < 2147483648 ∧ Context.sample.ToNumber (.Smi 3) = .ok (.Smi 3) ∧
    (Number.Smi 3).WF ∧
    (ConvertTaggedAtomicIndexToWord32 Context.sample (.Smi 3) >>= fun r =>
      ValidateAtomicIndex r.1 4) = .ok () :=
  ⟨by decide, rfl, by decide,
    (C1_index_accepted_iff_in_bounds Context.sample (.Smi 3) (.Smi 3) 4 (by decide) rfl
      (by decide)).1 ⟨3, rfl, by decide, by decide⟩⟩

/-- C3: when `AtomicsStore(view, i, v)` succeeds with an integer operand `v` that is
representable in the kind of the view, `AtomicsLoad(view, i)` on the memory it
leaves succeeds and returns `truncate_to_kind(v, k)`, which is `v` itself. -/
theorem C3_store_then_load (context : Context) (mem mem' : Memory) (a : JSTypedArray)
    (index value : Tagged) (value_integer r : Number) (v : Int)
    (hv : context.ToInteger value = .ok value_integer) (hvi : value_integer.IsInt v)
    (hrep : a.elements.representable v)
    (hstore : AtomicsStore context mem (.JSTypedArray a) index value = (.ok r, mem')) :
    ∃ r' : Number, AtomicsLoad context mem' (.JSTypedArray a) index = (.ok r', mem') ∧
      r'.IsInt (a.elements.truncate_to_kind v) ∧ a.elements.truncate_to_kind v = v := by
  cases hreq : ValidateRequest context (.JSTypedArray a) index with
  | error e =>
    rw [(ValidateRequest_error context _ index e hreq mem value).2.1] at hstore
    simp at hstore
  | ok r0 =>
    obtain ⟨a2, num, ha, hs, hk, hc, hb, _⟩ := ValidateRequest_inv context _ index r0 hreq
    cases ha
    rw [AtomicsStore_valid context mem a index value r0 hreq, hv] at hstore
    simp only [Prod.mk.injEq, Except.ok.injEq] at hstore
    obtain ⟨_, hm⟩ := hstore
    subst hm
    exact ⟨_, AtomicsLoad_valid context _ a index r0 hreq,
      cell_value_store a hk mem r0.2.2 value_integer v hvi,
      truncate_to_kind_representable _ _ hrep⟩

/-- Witness of C3: an Int16 view of length 4, `Store(view, 1, 300)` then
`Load(view, 1)` gives 300. -/
theorem C3_store_then_load_witness :
    Context.sample.ToInteger (.Smi 300) = .ok (.Smi 300) ∧ (Number.Smi 300).IsInt 300 ∧
    (sampleView .Int16).elements.representable 300 ∧
    AtomicsStore Context.sample zeroMemory int16View (.Smi 1) (.Smi 300)
      = (.ok (.Smi 300), mem300) ∧
    ∃ r' : Number, AtomicsLoad Context.sample mem300 int16View (.Smi 1) = (.ok r', mem300) ∧
      r'.IsInt ((sampleView .Int16).elements.truncate_to_kind 300) ∧
      (sampleView .Int16).elements.truncate_to_kind 300 = 300 :=
  ⟨rfl, rfl, by decide, Prod.ext (by decide) rfl,
    C3_store_then_load Context.sample zeroMemory mem300 (sampleView .Int16) (.Smi 1) (.Smi 300)
      (.Smi 300) (.Smi 300) 300 rfl rfl (by decide) (Prod.ext (by decide) rfl)⟩

/-- C4: on the targets with atomic exchange instructions, a successful
`AtomicsExchange(view, i, v)` with an integer operand `v` returns exactly what
`AtomicsLoad(view, i)` returns on the memory before the call, which is the value
last written to the cell by a Store or an Exchange, wrapped into the kind; and on
the memory after the call `AtomicsLoad(view, i)` returns `v` wrapped into the
kind. -/
theorem C4_exchange_returns_previous (context : Context) (mem mem' : Memory) (a : JSTypedArray)
    (index value : Tagged) (value_integer r : Number) (v : Int)
    (hv : context.ToInteger value = .ok value_integer) (hvi : value_integer.IsInt v)
    (hx : AtomicsExchange context mem (.JSTypedArray a) index value = (.ok r, mem')) :
    AtomicsLoad context mem (.JSTypedArray a) index = (.ok r, mem) ∧
    (∃ r' : Number, AtomicsLoad context mem' (.JSTypedArray a) index = (.ok r', mem') ∧
      r'.IsInt (a.elements.truncate_to_kind v)) ∧
    (∀ (mem0 : Memory) (value0 : Tagged) (value_integer0 r0 : Number) (v0 : Int),
      context.ToInteger value0 = .ok value_integer0 → value_integer0.IsInt v0 →
      (AtomicsStore context mem0 (.JSTypedArray a) index value0 = (.ok r0, mem) ∨
        AtomicsExchange context mem0 (.JSTypedArray a) index value0 = (.ok r0, mem)) →
      r.IsInt (a.elements.truncate_to_kind v0)) := by
  cases hreq : ValidateRequest context (.JSTypedArray a) index with
  | error e =>
    rw [(ValidateRequest_error context _ index e hreq mem value).2.2] at hx
    simp at hx
  | ok q =>
    obtain ⟨a2, num, ha, hs, hk, hc, hb, _⟩ := ValidateRequest_inv context _ index q hreq
    cases ha
    rw [AtomicsExchange_valid context mem a index value q hreq, hv] at hx
    simp only [Prod.mk.injEq, Except.ok.injEq] at hx
    obtain ⟨hr, hm⟩ := hx
    subst hm
    subst hr
    refine ⟨AtomicsLoad_valid context mem a index q hreq,
      ⟨_, AtomicsLoad_valid context _ a index q hreq,
        cell_value_store a hk mem q.2.2 value_integer v hvi⟩, ?_⟩
    intro mem0 value0 value_integer0 r0 v0 hv0 hvi0 hprev
    rcases hprev with hprev | hprev
    · rw [AtomicsStore_valid context mem0 a index value0 q hreq, hv0] at hprev
      simp only [Prod.mk.injEq, Except.ok.injEq] at hprev
      rw [← hprev.2]
      exact cell_value_store a hk mem0 q.2.2 value_integer0 v0 hvi0
    · rw [AtomicsExchange_valid context mem0 a index value0 q hreq, hv0] at hprev
      simp only [Prod.mk.injEq, Except.ok.injEq] at hprev
      rw [← hprev.2]
      exact cell_value_store a hk mem0 q.2.2 value_integer0 v0 hvi0

/-- Witness of C4: the Int16 cell holds 300; `Exchange(view, 1, -1)` returns 300 and
the following Load returns `-1`. -/
theorem C4_exchange_returns_previous_witness :
    AtomicsExchange Context.sample mem300 int16View (.Smi 1) (.Smi (-1))
      = (.ok (.Smi 300), memNeg1) ∧
    AtomicsLoad Context.sample mem300 int16View (.Smi 1) = (.ok (.Smi 300), mem300) ∧
    (∃ r' : Number, AtomicsLoad Context.sample memNeg1 int16View (.Smi 1) = (.ok r', memNeg1) ∧
      r'.IsInt ((sampleView .Int16).elements.truncate_to_kind (-1))) ∧
    (AtomicsLoad Context.sample memNeg1 int16View (.Smi 1)).1 = .ok (.Smi (-1)) :=
  have h := C4_exchange_returns_previous Context.sample mem300 memNeg1 (sampleView .Int16)
    (.Smi 1) (.Smi (-1)) (.Smi (-1)) (.Smi 300) (-1) rfl rfl (Prod.ext (by decide) rfl)
  ⟨Prod.ext (by decide) rfl, h.1, h.2.1, by decide⟩

/-- C5: a successful `AtomicsStore` returns the integer-coerced operand
`ToInteger(value)` itself; when that integer is outside the range of the kind, the
following `AtomicsLoad` of the cell returns the wrapped value, which differs from
what the Store returned. -/
theorem C5_store_returns_coerced_operand (context : Context) (mem mem' : Memory)
    (a : JSTypedArray) (index value : Tagged) (r : Number)
    (hstore : AtomicsStore context mem (.JSTypedArray a) index value = (.ok r, mem')) :
    context.ToInteger value = .ok r ∧
    (∀ v : Int, r.IsInt v → ¬ a.elements.representable v →
      ∃ r' : Number, AtomicsLoad context mem' (.JSTypedArray a) index = (.ok r', mem') ∧
        r'.IsInt (a.elements.truncate_to_kind v) ∧ a.elements.truncate_to_kind v ≠ v ∧ r' ≠ r) := by
  cases hreq : ValidateRequest context (.JSTypedArray a) index with
  | error e =>
    rw [(ValidateRequest_error context _ index e hreq mem value).2.1] at hstore
    simp at hstore
  | ok q =>
    obtain ⟨a2, num, ha, hs, hk, hc, hb, _⟩ := ValidateRequest_inv context _ index q hreq
    cases ha
    rw [AtomicsStore_valid context mem a index value q hreq] at hstore
    cases hv : context.ToInteger value with
    | error e =>
      rw [hv] at hstore
      simp at hstore
    | ok value_integer =>
      rw [hv] at hstore
      simp only [Prod.mk.injEq, Except.ok.injEq] at hstore
      obtain ⟨hr, hm⟩ := hstore
      subst hm
      subst hr
      refine ⟨rfl, ?_⟩
      intro v hvi hnot
      have hload := cell_value_store a hk mem q.2.2 value_integer v hvi
      have hne : a.elements.truncate_to_kind v ≠ v := by
        intro heq
        apply hnot
        rw [← heq]
        exact representable_truncate_to_kind _ _
      refine ⟨_, AtomicsLoad_valid context _ a index q hreq, hload, hne, ?_⟩
      intro heq
      rw [heq] at hload
      exact hne (Number_IsInt_unique value_integer _ _ hload hvi)

/-- Witness of C5: 300 stored into an Int8 cell is returned as 300, and the cell
then loads as 44. -/
theorem C5_store_returns_coerced_operand_witness :
    AtomicsStore Context.sample zeroMemory (.JSTypedArray (sampleView .Int8)) (.Smi 1) (.Smi 300)
      = (.ok (.Smi 300), memStore300 .Int8) ∧
    Context.sample.ToInteger (.Smi 300) = .ok (.Smi 300) ∧
    (AtomicsLoad Context.sample (memStore300 .Int8) (.JSTypedArray (sampleView .Int8)) (.Smi 1)).1
      = .ok (.Smi 44) ∧
    (AtomicsLoad Context.sample (memStore300 .Uint8) (.JSTypedArray (sampleView .Uint8))
      (.Smi 1)).1 = .ok (.Smi 44) :=
  ⟨Prod.ext (by decide) rfl,
    (C5_store_returns_coerced_operand Context.sample zeroMemory (memStore300 .Int8)
      (sampleView .Int8) (.Smi 1) (.Smi 300) (.Smi 300) (Prod.ext (by decide) rfl)).1,
    by decide, by decide⟩

/-- C6: for a typed view whose element kind is Float32, Float64 or clamped-byte,
whatever the index operand and the value operand are (and whatever their coercions
would do), each of `AtomicsLoad`, `AtomicsStore` and `AtomicsExchange` ends in the
not-integer-shared-typed-array error, never in the invalid-index error, and leaves
the memory as it was: the view check is decided before the index is looked at. -/
theorem C6_float_and_clamped_views_rejected (context : Context) (mem : Memory)
    (a : JSTypedArray) (index value : Tagged)
    (hk : a.elements = .Float32 ∨ a.elements = .Float64 ∨ a.elements = .Uint8Clamped) :
    AtomicsLoad context mem (.JSTypedArray a) index
      = (.error .kNotIntegerSharedTypedArrayError, mem) ∧
    AtomicsStore context mem (.JSTypedArray a) index value
      = (.error .kNotIntegerSharedTypedArrayError, mem) ∧
    AtomicsExchange context mem (.JSTypedArray a) index value
      = (.error .kNotIntegerSharedTypedArrayError, mem) := by
  have hne : ¬ (a.buffer.is_shared = true ∧ a.elements.eligible = true) := by
    rintro ⟨_, he⟩
    rcases hk with h | h | h <;> rw [h] at he <;> cases he
  have hreq : ValidateRequest context (.JSTypedArray a) index
      = .error .kNotIntegerSharedTypedArrayError := by
    unfold ValidateRequest
    rw [ValidateSharedTypedArray_typed, if_neg hne]
  exact ValidateRequest_error context _ index _ hreq mem value

/-- Witness of C6: a Float32 view with a NaN index. -/
theorem C6_float_and_clamped_views_rejected_witness :
    (AtomicsLoad Context.sample zeroMemory (.JSTypedArray (sampleView .Float32))
      (.HeapNumber f64_NaN)).1 = .error .kNotIntegerSharedTypedArrayError :=
  congrArg Prod.fst
    (C6_float_and_clamped_views_rejected Context.sample zeroMemory (sampleView .Float32)
      (.HeapNumber f64_NaN) (.Smi 0) (Or.inl rfl)).1

/-- C8: a request to `AtomicsLoad`, `AtomicsStore` or `AtomicsExchange` that ends in
an error (view rejected, index inexact, index out of bounds, or a coercion that
raises) leaves the shared memory exactly as it was. -/
theorem C8_error_leaves_memory_unchanged (context : Context) (mem : Memory)
    (array index value : Tagged) (e : Error) :
    ((AtomicsLoad context mem array index).1 = .error e →
      (AtomicsLoad context mem array index).2 = mem) ∧
    ((AtomicsStore context mem array index value).1 = .error e →
      (AtomicsStore context mem array index value).2 = mem) ∧
    ((AtomicsExchange context mem array index value).1 = .error e →
      (AtomicsExchange context mem array index value).2 = mem) := by
  cases hreq : ValidateRequest context array index with
  | error e1 =>
    obtain ⟨h1, h2, h3⟩ := ValidateRequest_error context array index e1 hreq mem value
    rw [h1, h2, h3]
    exact ⟨fun _ => rfl, fun _ => rfl, fun _ => rfl⟩
  | ok q =>
    obtain ⟨a, num, ha, hs, hk, hc, hb, _⟩ := ValidateRequest_inv context _ index q hreq
    subst ha
    rw [AtomicsLoad_valid context mem a index q hreq,
      AtomicsStore_valid context mem a index value q hreq,
      AtomicsExchange_valid context mem a index value q hreq]
    refine ⟨fun _ => rfl, ?_, ?_⟩
    · cases context.ToInteger value with
      | error e2 => exact fun _ => rfl
      | ok x => intro h; simp at h
    · cases context.ToInteger value with
      | error e2 => exact fun _ => rfl
      | ok x => intro h; simp at h

/-- Witness of C8: a Store at the out-of-bounds index 4 of the sample Int16 view
fails and leaves the memory as it was. -/
theorem C8_error_leaves_memory_unchanged_witness :
    (AtomicsStore Context.sample mem300 int16View (.Smi 4) (.Smi 7)).1
      = .error .kInvalidAtomicAccessIndexError ∧
    (AtomicsStore Context.sample mem300 int16View (.Smi 4) (.Smi 7)).2 = mem300 :=
  ⟨by decide,
    (C8_error_leaves_memory_unchanged Context.sample mem300 int16View (.Smi 4) (.Smi 7)
      .kInvalidAtomicAccessIndexError).2.1 (by decide)⟩

/-- C9, as the code has it: for every operand that is not a typed view (a small
integer, or a heap object of another instance type) the three entry points signal
the not-integer-shared-typed-array error, the same identity as for an ineligible
typed view; view validation signals no other identity. -/
theorem C9_non_view_operand_rejected (context : Context) (mem : Memory)
    (array index value : Tagged) (hno : ∀ a : JSTypedArray, array ≠ .JSTypedArray a) :
    AtomicsLoad context mem array index = (.error .kNotIntegerSharedTypedArrayError, mem) ∧
    AtomicsStore context mem array index value
      = (.error .kNotIntegerSharedTypedArrayError, mem) ∧
    AtomicsExchange context mem array index value
      = (.error .kNotIntegerSharedTypedArrayError, mem) ∧
    (∀ (tagged : Tagged) (e : Error), ValidateSharedTypedArray tagged = .error e →
      e = .kNotIntegerSharedTypedArrayError) := by
  have hreq : ValidateRequest context array index
      = .error .kNotIntegerSharedTypedArrayError := by
    unfold ValidateRequest
    rw [ValidateSharedTypedArray_other array hno]
  obtain ⟨h1, h2, h3⟩ := ValidateRequest_error context array index _ hreq mem value
  exact ⟨h1, h2, h3, ValidateSharedTypedArray_error⟩

/-- Witness of C9: a Smi operand. -/
theorem C9_non_view_operand_rejected_witness :
    (∀ a : JSTypedArray, Tagged.Smi 5 ≠ .JSTypedArray a) ∧
    AtomicsLoad Context.sample zeroMemory (.Smi 5) (.Smi 0)
      = (.error .kNotIntegerSharedTypedArrayError, zeroMemory) :=
  ⟨fun _ h => Tagged.noConfusion h,
    (C9_non_view_operand_rejected Context.sample zeroMemory (.Smi 5) (.Smi 0) (.Smi 0)
      (fun _ h => Tagged.noConfusion h)).1⟩

/-- C9 as stated fails: for a Smi operand and for a heap object that is no typed
array, `AtomicsLoad`, `AtomicsStore` and `AtomicsExchange` signal the
not-integer-shared-typed-array error, not the incompatible-receiver error. -/
theorem C9_counterexample :
    (AtomicsLoad Context.sample zeroMemory (.Smi 5) (.Smi 0)).1
      = .error .kNotIntegerSharedTypedArrayError ∧
    (AtomicsLoad Context.sample zeroMemory (.Smi 5) (.Smi 0)).1
      ≠ .error .kIncompatibleMethodReceiver ∧
    (AtomicsStore Context.sample zeroMemory plainObject (.Smi 0) (.Smi 0)).1
      ≠ .error .kIncompatibleMethodReceiver ∧
    (AtomicsExchange Context.sample zeroMemory plainObject (.Smi 0) (.Smi 0)).1
      ≠ .error .kIncompatibleMethodReceiver := by
  decide

/-! ## Normalization of the index, continued -/

theorem ChangeInt32ToFloat64_zero_of_isZero (w : Nat)
    (h : (ChangeInt32ToFloat64 w).isZero = true) : ChangeInt32ToFloat64 w = f64_zero := by
  have h0 := isZero_IsInt _ h
  have hw := ChangeInt32ToFloat64_IsInt w
  have hz : Int32 w = 0 := IsInt_unique _ _ _ hw h0
  unfold ChangeInt32ToFloat64
  rw [hz]
  rfl

theorem isZero_cases (x : Float64) (h : x.isZero = true) : x = f64_zero ∨ x = f64_negZero := by
  unfold Float64.isZero at h
  simp only [Bool.and_eq_true, beq_iff_eq] at h
  cases hs : x.sign
  · left
    exact Float64.eq_of_fields x f64_zero hs h.1 h.2
  · right
    exact Float64.eq_of_fields x f64_negZero hs h.1 h.2

/-- The round-trip test passes exactly when the float converted back has the bits of
the input, or the input is negative zero. -/
theorem Float64Equal_roundtrip_iff_bits (x : Float64) :
    Float64Equal x (ChangeInt32ToFloat64 (TruncateFloat64ToWord32 x)) = true ↔
      (x = ChangeInt32ToFloat64 (TruncateFloat64ToWord32 x) ∨ x = f64_negZero) := by
  constructor
  · intro h
    unfold Float64Equal at h
    simp only [Bool.and_eq_true, Bool.or_eq_true, Bool.not_eq_true', decide_eq_true_eq] at h
    rcases h.2 with ⟨hx, hy⟩ | heq
    · rcases isZero_cases x hx with h1 | h1
      · left
        rw [ChangeInt32ToFloat64_zero_of_isZero _ hy]
        exact h1
      · right
        exact h1
    · left
      exact heq
  · intro h
    rcases h with h | h
    · generalize TruncateFloat64ToWord32 x = w at h ⊢
      have hx : x.IsInt (Int32 w) := by
        rw [h]
        exact ChangeInt32ToFloat64_IsInt w
      exact Float64Equal_of_IsInt x _ (Int32 w) hx (ChangeInt32ToFloat64_IsInt w)
    · subst h
      decide

/-- C11, as the code has it: for a number that is not a Smi, normalization succeeds
if and only if the truncated 32-bit candidate converted back to floating point is
equal to `x` under IEEE-754 equality (`Float64Equal`), that is, has the bits of `x`
or `x` is negative zero; otherwise it fails with the invalid-index error. Negative
zero succeeds with index 0. -/
theorem C11_roundtrip_is_ieee_equality (context : Context) (tagged : Tagged) (x : Float64)
    (hx : context.ToNumber tagged = .ok (.HeapNumber x)) :
    ((x = ChangeInt32ToFloat64 (TruncateFloat64ToWord32 x) ∨ x = f64_negZero) →
      ConvertTaggedAtomicIndexToWord32 context tagged
        = .ok (TruncateFloat64ToWord32 x, .HeapNumber x)) ∧
    (¬ (x = ChangeInt32ToFloat64 (TruncateFloat64ToWord32 x) ∨ x = f64_negZero) →
      ConvertTaggedAtomicIndexToWord32 context tagged = .error .kInvalidAtomicAccessIndexError) ∧
    (x = f64_negZero →
      ConvertTaggedAtomicIndexToWord32 context tagged = .ok (0, .HeapNumber x)) := by
  have hpos : (x = ChangeInt32ToFloat64 (TruncateFloat64ToWord32 x) ∨ x = f64_negZero) →
      ConvertTaggedAtomicIndexToWord32 context tagged
        = .ok (TruncateFloat64ToWord32 x, .HeapNumber x) := by
    intro h
    unfold ConvertTaggedAtomicIndexToWord32
    rw [hx]
    simp only
    rw [if_pos ((Float64Equal_roundtrip_iff_bits x).2 h)]
  refine ⟨hpos, ?_, ?_⟩
  · intro h
    unfold ConvertTaggedAtomicIndexToWord32
    rw [hx]
    simp only
    rw [if_neg (fun hh => h ((Float64Equal_roundtrip_iff_bits x).1 hh))]
  · intro h
    have := hpos (Or.inr h)
    subst h
    exact this

/-- Witness of C11: the heap number `2.0` has the bits of its candidate converted
back, and is normalized to 2. -/
theorem C11_roundtrip_is_ieee_equality_witness :
    Context.sample.ToNumber (.HeapNumber f64_2) = .ok (.HeapNumber f64_2) ∧
    f64_2 = ChangeInt32ToFloat64 (TruncateFloat64ToWord32 f64_2) ∧
    ConvertTaggedAtomicIndexToWord32 Context.sample (.HeapNumber f64_2)
      = .ok (TruncateFloat64ToWord32 f64_2, .HeapNumber f64_2) :=
  ⟨rfl, by decide,
    (C11_roundtrip_is_ieee_equality Context.sample (.HeapNumber f64_2) f64_2 rfl).1
      (Or.inl (by decide))⟩

/-- C11 as stated fails on negative zero: its candidate is 0, the candidate converted
back is `+0.0`, whose bits differ from those of `-0.0`, and yet normalization
succeeds with index 0. -/
theorem C11_counterexample :
    TruncateFloat64ToWord32 f64_negZero = 0 ∧
    ChangeInt32ToFloat64 (TruncateFloat64ToWord32 f64_negZero) = f64_zero ∧
    ChangeInt32ToFloat64 (TruncateFloat64ToWord32 f64_negZero) ≠ f64_negZero ∧
    ConvertTaggedAtomicIndexToWord32 Context.sample (.HeapNumber f64_negZero)
      = .ok (0, .HeapNumber f64_negZero) := by
  decide

/-- C12: every integer `n` with `-2^31 ≤ n ≤ 2^31 - 1`, given as a Smi or as a heap
number, passes `ConvertTaggedAtomicIndexToWord32`, which takes no view length, and
the word returned reads as `n`; a negative `n` and an `n` at or beyond a length
`L < 2^31` are rejected only by `ValidateAtomicIndex`. -/
theorem C12_int32_passes_normalization (context : Context) (tagged : Tagged) (x : Number)
    (n : Int) (hx : context.ToNumber tagged = .ok x) (hn : x.IsInt n)
    (h1 : -2147483648 ≤ n) (h2 : n ≤ 2147483647) :
    ConvertTaggedAtomicIndexToWord32 context tagged = .ok (Word32 n, x) ∧
    Int32 (Word32 n) = n ∧
    (∀ L : Nat, L < 2147483648 → (n < 0 ∨ (L : Int) ≤ n) →
      ValidateAtomicIndex (Word32 n) L = .error .kInvalidAtomicAccessIndexError) := by
  refine ⟨?_, Int32_Word32 n h1 (by omega), ?_⟩
  · cases x with
    | Smi k =>
      have hk : k = n := hn
      subst hk
      exact Convert_Smi context tagged k hx
    | HeapNumber f => exact Convert_HeapNumber_ok context tagged f n hx hn h1 (by omega)
  · intro L hL hout
    exact (Validate_Word32_iff n L hL h1 (by omega)).2 (by omega)

/-- Witness of C12: the heap number `-1.0` passes normalization with the word of
`-1`. -/
theorem C12_int32_passes_normalization_witness :
    Context.sample.ToNumber (.HeapNumber f64_neg1) = .ok (.HeapNumber f64_neg1) ∧
    (Number.HeapNumber f64_neg1).IsInt (-1) ∧
    ConvertTaggedAtomicIndexToWord32 Context.sample (.HeapNumber f64_neg1)
      = .ok (Word32 (-1), .HeapNumber f64_neg1) ∧
    ValidateAtomicIndex (Word32 (-1)) 4 = .error .kInvalidAtomicAccessIndexError :=
  have h := C12_int32_passes_normalization Context.sample (.HeapNumber f64_neg1)
    (.HeapNumber f64_neg1) (-1) rfl (by decide) (by decide) (by decide)
  ⟨rfl, by decide, h.1, h.2.2 4 (by decide) (Or.inl (by decide))⟩

/-- C13: the Smi fast path agrees with the heap-number path: for a Smi `n` and any
float of value `n` (such as `n` converted to floating point) the two paths both
succeed, with the same index word, whose signed reading is `n`. -/
theorem C13_smi_path_agrees_with_heap_number_path (c1 c2 : Context) (t1 t2 : Tagged) (n : Int)
    (f : Float64) (hn : SmiIsValid n) (h1 : c1.ToNumber t1 = .ok (.Smi n))
    (h2 : c2.ToNumber t2 = .ok (.HeapNumber f)) (hf : f.IsInt n) :
    (∃ w : Nat, ConvertTaggedAtomicIndexToWord32 c1 t1 = .ok (w, .Smi n) ∧
      ConvertTaggedAtomicIndexToWord32 c2 t2 = .ok (w, .HeapNumber f) ∧ Int32 w = n) ∧
    (ChangeInt32ToFloat64 (SmiToWord32 n)).IsInt n := by
  have hk : kSmiMinValue ≤ n ∧ n ≤ kSmiMaxValue := hn
  unfold kSmiMinValue kSmiMaxValue at hk
  refine ⟨⟨Word32 n, Convert_Smi c1 t1 n h1,
    Convert_HeapNumber_ok c2 t2 f n h2 hf (by omega) (by omega),
    Int32_Word32 n (by omega) (by omega)⟩, ?_⟩
  have h := ChangeInt32ToFloat64_IsInt (SmiToWord32 n)
  unfold SmiToWord32 at h ⊢
  rw [Int32_Word32 n (by omega) (by omega)] at h
  exact h

/-- Witness of C13: the Smi 2 and the heap number `2.0` are both normalized to the
word 2. -/
theorem C13_smi_path_agrees_with_heap_number_path_witness :
    SmiIsValid 2 ∧ f64_2.IsInt 2 ∧
    ∃ w : Nat, ConvertTaggedAtomicIndexToWord32 Context.sample (.Smi 2) = .ok (w, .Smi 2) ∧
      ConvertTaggedAtomicIndexToWord32 Context.sample (.HeapNumber f64_2)
        = .ok (w, .HeapNumber f64_2) ∧ Int32 w = 2 :=
  ⟨by decide, by decide,
    (C13_smi_path_agrees_with_heap_number_path Context.sample Context.sample (.Smi 2)
      (.HeapNumber f64_2) 2 f64_2 (by decide) rfl rfl (by decide)).1⟩

/-! ## The kind dispatch -/

theorem instance_type_of_eligible (k : ElementKind) (hk : k.eligible = true) :
    k.instance_type = FIXED_INT8_ARRAY_TYPE ∨ k.instance_type = FIXED_UINT8_ARRAY_TYPE ∨
    k.instance_type = FIXED_INT16_ARRAY_TYPE ∨ k.instance_type = FIXED_UINT16_ARRAY_TYPE ∨
    k.instance_type = FIXED_INT32_ARRAY_TYPE ∨ k.instance_type = FIXED_UINT32_ARRAY_TYPE := by
  cases k <;> revert hk <;> decide

theorem Convert_error_cases (context : Context) (index : Tagged) (e : Error)
    (h : ConvertTaggedAtomicIndexToWord32 context index = .error e) :
    e = .kInvalidAtomicAccessIndexError ∨ context.ToNumber index = .error e := by
  unfold ConvertTaggedAtomicIndexToWord32 at h
  split at h
  · rename_i e1 hn
    simp only [Except.error.injEq] at h
    subst h
    exact Or.inr hn
  · split at h
    · cases h
    · simp only at h
      split at h
      · cases h
      · simp only [Except.error.injEq] at h
        exact Or.inl h.symm

theorem ValidateRequest_error_cases (context : Context) (array index : Tagged) (e : Error)
    (h : ValidateRequest context array index = .error e) :
    e = .kNotIntegerSharedTypedArrayError ∨ e = .kInvalidAtomicAccessIndexError ∨
    context.ToNumber index = .error e := by
  unfold ValidateRequest at h
  split at h
  · rename_i e1 hv
    simp only [Except.error.injEq] at h
    subst h
    exact Or.inl (ValidateSharedTypedArray_error array e1 hv)
  · split at h
    · rename_i e1 hc
      simp only [Except.error.injEq] at h
      subst h
      exact Or.inr (Convert_error_cases context index e1 hc)
    · split at h
      · rename_i e1 hb
        simp only [Except.error.injEq] at h
        subst h
        unfold ValidateAtomicIndex at hb
        split at hb
        · cases hb
        · simp only [Except.error.injEq] at hb
          exact Or.inr (Or.inl hb.symm)
      · cases h

/-- C14: when `ValidateSharedTypedArray` succeeds, the instance type it outputs is
one of the six of Int8, Uint8, Int16, Uint16, Int32, Uint32, so the switch of
`AtomicsLoad`, `AtomicsStore` and `AtomicsExchange` takes a typed branch: none of
the three ends in `Unreachable()` (the coercions themselves not aborting). -/
theorem C14_dispatch_never_unreachable (context : Context) (mem : Memory)
    (array index value : Tagged) (instance_type backing_store : Nat)
    (hN : ∀ t : Tagged, context.ToNumber t ≠ .error .Unreachable)
    (hI : ∀ t : Tagged, context.ToInteger t ≠ .error .Unreachable)
    (hv : ValidateSharedTypedArray array = .ok (instance_type, backing_store)) :
    (instance_type = FIXED_INT8_ARRAY_TYPE ∨ instance_type = FIXED_UINT8_ARRAY_TYPE ∨
      instance_type = FIXED_INT16_ARRAY_TYPE ∨ instance_type = FIXED_UINT16_ARRAY_TYPE ∨
      instance_type = FIXED_INT32_ARRAY_TYPE ∨ instance_type = FIXED_UINT32_ARRAY_TYPE) ∧
    (AtomicsLoad context mem array index).1 ≠ .error .Unreachable ∧
    (AtomicsStore context mem array index value).1 ≠ .error .Unreachable ∧
    (AtomicsExchange context mem array index value).1 ≠ .error .Unreachable := by
  obtain ⟨a, ha, hs, hk, hr⟩ := ValidateSharedTypedArray_inv array _ hv
  subst ha
  simp only [Prod.mk.injEq] at hr
  refine ⟨by rw [hr.1]; exact instance_type_of_eligible _ hk, ?_⟩
  cases hreq : ValidateRequest context (.JSTypedArray a) index with
  | error e =>
    obtain ⟨h1, h2, h3⟩ := ValidateRequest_error context _ index e hreq mem value
    rw [h1, h2, h3]
    have hne : e ≠ .Unreachable := by
      rcases ValidateRequest_error_cases context _ index e hreq with h | h | h
      · rw [h]; decide
      · rw [h]; decide
      · intro he
        rw [he] at h
        exact hN index h
    simp only [ne_eq, Except.error.injEq]
    exact ⟨hne, hne, hne⟩
  | ok q =>
    rw [AtomicsLoad_valid context mem a index q hreq,
      AtomicsStore_valid context mem a index value q hreq,
      AtomicsExchange_valid context mem a index value q hreq]
    have hI2 := hI value
    cases hv2 : context.ToInteger value with
    | error e2 =>
      rw [hv2] at hI2
      simp only [ne_eq, Except.error.injEq] at hI2 ⊢
      exact ⟨by simp, hI2, hI2⟩
    | ok x => simp

/-- Witness of C14: the sample Int16 view passes validation with the Int16 instance
type, and a Load from it does not abort. -/
theorem C14_dispatch_never_unreachable_witness :
    ValidateSharedTypedArray int16View = .ok (FIXED_INT16_ARRAY_TYPE, 4104) ∧
    (AtomicsLoad Context.sample zeroMemory int16View (.Smi 1)).1 ≠ .error .Unreachable :=
  ⟨by decide,
    (C14_dispatch_never_unreachable Context.sample zeroMemory int16View (.Smi 1) (.Smi 0)
      FIXED_INT16_ARRAY_TYPE 4104
      (fun t => by cases t <;> exact fun h => by cases h)
      (fun t => by cases t <;> exact fun h => by cases h)
      (by decide)).2.1⟩

/-! ## Width of a store -/

theorem Word32_mod_size (k : ElementKind) (hk : k.eligible = true) (v : Int) :
    Word32 v % 256 ^ k.size = (v % ((2 ^ k.bits : Nat) : Int)).toNat := by
  unfold Word32
  cases k
  case Float32 => cases hk
  case Float64 => cases hk
  case Uint8Clamped => cases hk
  all_goals
    simp only [ElementKind.size, ElementKind.bits]
    norm_num
    omega

theorem truncate_to_kind_range (k : ElementKind) (v : Int) :
    (k.signed = false → 0 ≤ k.truncate_to_kind v ∧
      k.truncate_to_kind v ≤ ((2 ^ k.bits : Nat) : Int) - 1) ∧
    (k.signed = true → -((2 ^ (k.bits - 1) : Nat) : Int) ≤ k.truncate_to_kind v ∧
      k.truncate_to_kind v ≤ ((2 ^ (k.bits - 1) : Nat) : Int) - 1) := by
  have h := representable_truncate_to_kind k v
  unfold ElementKind.representable at h
  constructor
  · intro hs
    rw [hs] at h
    simp only [Bool.false_eq_true, if_false] at h
    omega
  · intro hs
    rw [hs] at h
    simp only [if_true] at h
    omega

theorem truncate_to_kind_congr (k : ElementKind) (v : Int) :
    k.truncate_to_kind v % ((2 ^ k.bits : Nat) : Int) = v % ((2 ^ k.bits : Nat) : Int) := by
  unfold ElementKind.truncate_to_kind
  simp only
  split
  · rw [Int.sub_emod, Int.emod_self, Int.sub_zero, Int.emod_emod, Int.emod_emod]
  · rw [Int.emod_emod]

theorem cell_address_kind_congr (buffer : JSArrayBuffer) (byte_offset length : Number)
    (k1 k2 : ElementKind) (h1 : k1.eligible = true) (h2 : k2.eligible = true)
    (hsz : k1.size = k2.size) (w : Nat) :
    JSTypedArray.cell_address ⟨buffer, k1, byte_offset, length⟩ w
      = JSTypedArray.cell_address ⟨buffer, k2, byte_offset, length⟩ w := by
  cases k1 <;> cases k2 <;> first
    | rfl
    | (exfalso; revert h1; decide)
    | (exfalso; revert h2; decide)
    | (exfalso; revert hsz; decide)

theorem AtomicsStore_kind_congr (context : Context) (mem : Memory) (buffer : JSArrayBuffer)
    (byte_offset length : Number) (index value : Tagged) (k1 k2 : ElementKind)
    (h1 : k1.eligible = true) (h2 : k2.eligible = true) (hsz : k1.size = k2.size) :
    AtomicsStore context mem (.JSTypedArray ⟨buffer, k1, byte_offset, length⟩) index value =
      AtomicsStore context mem (.JSTypedArray ⟨buffer, k2, byte_offset, length⟩) index value := by
  cases hq1 : ValidateRequest context (.JSTypedArray ⟨buffer, k1, byte_offset, length⟩) index with
  | error e =>
    have hq2 : ValidateRequest context (.JSTypedArray ⟨buffer, k2, byte_offset, length⟩) index
        = .error e := by
      unfold ValidateRequest at hq1 ⊢
      rw [ValidateSharedTypedArray_typed] at hq1 ⊢
      simp only [h1, h2, and_true, LoadLength] at hq1 ⊢
      cases hs : buffer.is_shared
      · simpa [hs] using hq1
      · simp only [hs, if_true] at hq1 ⊢
        cases hc : ConvertTaggedAtomicIndexToWord32 context index with
        | error e1 =>
          simp only [hc] at hq1 ⊢
          exact hq1
        | ok p =>
          obtain ⟨w, num⟩ := p
          simp only [hc] at hq1 ⊢
          cases hb : ValidateAtomicIndex w (TruncateTaggedToWord32 length) with
          | error e2 =>
            simp only [hb] at hq1 ⊢
            exact hq1
          | ok u => simp [hb] at hq1
    rw [(ValidateRequest_error context _ index e hq1 mem value).2.1,
      (ValidateRequest_error context _ index e hq2 mem value).2.1]
  | ok q =>
    obtain ⟨a, num, ha, hs, _, hc, hb, _⟩ := ValidateRequest_inv context _ index q hq1
    cases ha
    have hq2 := ValidateRequest_ok context ⟨buffer, k2, byte_offset, length⟩ index q.2.2 num
      hs h2 hc hb
    rw [AtomicsStore_valid context mem _ index value q hq1,
      AtomicsStore_valid context mem _ index value _ hq2]
    simp only [cell_address_kind_congr buffer byte_offset length k1 k2 h1 h2 hsz, hsz]

/-- C15: after a successful `AtomicsStore(view, i, v)` of an integer `v` (in or out of
the range of the kind) into a view of width `w` (8, 16 or 32 bits), the cell holds
`v mod 2^w`, and `AtomicsLoad(view, i)` returns the integer congruent to `v` modulo
`2^w` that lies in `[0, 2^w - 1]` for an unsigned kind and in
`[-2^(w-1), 2^(w-1) - 1]` for a signed kind; and a Store into an Int8, Int16 or
Int32 view does exactly what the same Store into the Uint8, Uint16 or Uint32 view
of the same buffer does. -/
theorem C15_store_wraps_to_width (context : Context) (mem mem' : Memory) (a : JSTypedArray)
    (index value : Tagged) (value_integer r : Number) (v : Int)
    (hv : context.ToInteger value = .ok value_integer) (hvi : value_integer.IsInt v)
    (hstore : AtomicsStore context mem (.JSTypedArray a) index value = (.ok r, mem')) :
    (a.elements.bits = 8 ∨ a.elements.bits = 16 ∨ a.elements.bits = 32) ∧
    (∃ (w : Nat) (number_index : Number),
      ConvertTaggedAtomicIndexToWord32 context index = .ok (w, number_index) ∧
      mem'.load (a.cell_address w) a.elements.size
        = (v % ((2 ^ a.elements.bits : Nat) : Int)).toNat) ∧
    (∃ r' : Number, AtomicsLoad context mem' (.JSTypedArray a) index = (.ok r', mem') ∧
      r'.IsInt (a.elements.truncate_to_kind v) ∧
      a.elements.truncate_to_kind v % ((2 ^ a.elements.bits : Nat) : Int)
        = v % ((2 ^ a.elements.bits : Nat) : Int) ∧
      (a.elements.signed = false → 0 ≤ a.elements.truncate_to_kind v ∧
        a.elements.truncate_to_kind v ≤ ((2 ^ a.elements.bits : Nat) : Int) - 1) ∧
      (a.elements.signed = true →
        -((2 ^ (a.elements.bits - 1) : Nat) : Int) ≤ a.elements.truncate_to_kind v ∧
        a.elements.truncate_to_kind v ≤ ((2 ^ (a.elements.bits - 1) : Nat) : Int) - 1)) ∧
    (∀ (m : Memory) (buffer : JSArrayBuffer) (byte_offset length : Number) (i x : Tagged),
      AtomicsStore context m (.JSTypedArray ⟨buffer, .Int8, byte_offset, length⟩) i x
        = AtomicsStore context m (.JSTypedArray ⟨buffer, .Uint8, byte_offset, length⟩) i x ∧
      AtomicsStore context m (.JSTypedArray ⟨buffer, .Int16, byte_offset, length⟩) i x
        = AtomicsStore context m (.JSTypedArray ⟨buffer, .Uint16, byte_offset, length⟩) i x ∧
      AtomicsStore context m (.JSTypedArray ⟨buffer, .Int32, byte_offset, length⟩) i x
        = AtomicsStore context m (.JSTypedArray ⟨buffer, .Uint32, byte_offset, length⟩) i x) := by
  cases hreq : ValidateRequest context (.JSTypedArray a) index with
  | error e =>
    rw [(ValidateRequest_error context _ index e hreq mem value).2.1] at hstore
    simp at hstore
  | ok q =>
    obtain ⟨a2, num, ha, hs, hk, hc, hb, _⟩ := ValidateRequest_inv context _ index q hreq
    cases ha
    rw [AtomicsStore_valid context mem a index value q hreq, hv] at hstore
    simp only [Prod.mk.injEq, Except.ok.injEq] at hstore
    obtain ⟨_, hm⟩ := hstore
    subst hm
    refine ⟨?_, ⟨q.2.2, num, hc, ?_⟩, ⟨_, AtomicsLoad_valid context _ a index q hreq,
      cell_value_store a hk mem q.2.2 value_integer v hvi, truncate_to_kind_congr _ v,
      (truncate_to_kind_range _ v).1, (truncate_to_kind_range _ v).2⟩, ?_⟩
    · revert hk
      cases a.elements <;> decide
    · rw [Memory.load_store, TruncateTaggedToWord32_IsInt value_integer v hvi,
        Word32_mod_size _ hk]
    · intro m buffer byte_offset length i x
      exact ⟨AtomicsStore_kind_congr context m buffer byte_offset length i x .Int8 .Uint8
          rfl rfl rfl,
        AtomicsStore_kind_congr context m buffer byte_offset length i x .Int16 .Uint16
          rfl rfl rfl,
        AtomicsStore_kind_congr context m buffer byte_offset length i x .Int32 .Uint32
          rfl rfl rfl⟩

/-- Witness of C15: 300 stored into an Int8 cell loads as 44, and `-1` stored into a
Uint32 cell loads as 4294967295. -/
theorem C15_store_wraps_to_width_witness :
    AtomicsStore Context.sample zeroMemory (.JSTypedArray (sampleView .Int8)) (.Smi 1) (.Smi 300)
      = (.ok (.Smi 300), memStore .Int8 300) ∧
    (∃ r' : Number,
      AtomicsLoad Context.sample (memStore .Int8 300) (.JSTypedArray (sampleView .Int8)) (.Smi 1)
        = (.ok r', memStore .Int8 300) ∧
      r'.IsInt ((sampleView .Int8).elements.truncate_to_kind 300)) ∧
    ElementKind.Int8.truncate_to_kind 300 = 44 ∧
    (AtomicsLoad Context.sample (memStore .Int8 300) (.JSTypedArray (sampleView .Int8))
      (.Smi 1)).1 = .ok (.Smi 44) ∧
    (AtomicsLoad Context.sample (memStore .Uint32 (-1)) (.JSTypedArray (sampleView .Uint32))
      (.Smi 1)).1 = .ok (.HeapNumber (ChangeUint32ToFloat64 4294967295)) ∧
    (ChangeUint32ToFloat64 4294967295).IsInt 4294967295 :=
  have h := C15_store_wraps_to_width Context.sample zeroMemory (memStore .Int8 300)
    (sampleView .Int8) (.Smi 1) (.Smi 300) (.Smi 300) (.Smi 300) 300 rfl rfl
    (Prod.ext (by decide) rfl)
  ⟨Prod.ext (by decide) rfl,
    (match h.2.2.1 with | ⟨r', h1, h2, _⟩ => ⟨r', h1, h2⟩),
    by decide, by decide, by decide, by decide⟩

/-! ## Frame of a write -/

theorem Convert_number (context : Context) (index : Tagged) (w : Nat) (x : Number)
    (h : ConvertTaggedAtomicIndexToWord32 context index = .ok (w, x)) :
    context.ToNumber index = .ok x := by
  unfold ConvertTaggedAtomicIndexToWord32 at h
  split at h
  · cases h
  · rename_i number_index hnum
    split at h
    · simp only [Except.ok.injEq, Prod.mk.injEq] at h
      rw [hnum, h.2]
    · simp only at h
      split at h
      · simp only [Except.ok.injEq, Prod.mk.injEq] at h
        rw [hnum, h.2]
      · cases h

theorem Convert_word (context : Context) (index : Tagged) (w : Nat) (x : Number)
    (hwf : x.WF) (h : ConvertTaggedAtomicIndexToWord32 context index = .ok (w, x)) :
    w < 4294967296 ∧ x.IsInt (Int32 w) := by
  have hx := Convert_number context index w x h
  cases x with
  | Smi k =>
    rw [Convert_Smi context index k hx] at h
    simp only [Except.ok.injEq, Prod.mk.injEq, and_true] at h
    subst h
    have hk : kSmiMinValue ≤ k ∧ k ≤ kSmiMaxValue := hwf
    unfold kSmiMinValue kSmiMaxValue at hk
    refine ⟨Word32_lt k, ?_⟩
    show k = Int32 (Word32 k)
    rw [Int32_Word32 k (by omega) (by omega)]
  | HeapNumber f =>
    by_cases hr : ∃ n : Int, f.IsInt n ∧ -2147483648 ≤ n ∧ n < 2147483648
    · obtain ⟨n, hn, h1, h2⟩ := hr
      rw [Convert_HeapNumber_ok context index f n hx hn h1 h2] at h
      simp only [Except.ok.injEq, Prod.mk.injEq, and_true] at h
      subst h
      refine ⟨Word32_lt n, ?_⟩
      rw [Int32_Word32 n h1 h2]
      exact hn
    · rw [Convert_HeapNumber_error context index f hx hr] at h
      cases h

theorem Convert_word_lt (context : Context) (index : Tagged) (w : Nat) (x : Number)
    (h : ConvertTaggedAtomicIndexToWord32 context index = .ok (w, x)) : w < 4294967296 := by
  unfold ConvertTaggedAtomicIndexToWord32 at h
  split at h
  · cases h
  · split at h
    · simp only [Except.ok.injEq, Prod.mk.injEq] at h
      rw [← h.1]
      exact Word32_lt _
    · simp only at h
      split at h
      · simp only [Except.ok.injEq, Prod.mk.injEq] at h
        rw [← h.1]
        unfold TruncateFloat64ToWord32
        split
        · decide
        · exact Word32_lt _
      · cases h

theorem cells_disjoint (a : JSTypedArray) (hk : a.elements.eligible = true) (w1 w2 : Nat)
    (h1 : w1 < 4294967296) (h2 : w2 < 4294967296) (hne : w1 ≠ w2) :
    a.cell_address w1 + a.elements.size ≤ a.cell_address w2 ∨
    a.cell_address w2 + a.elements.size ≤ a.cell_address w1 := by
  obtain ⟨buf, k, off, len⟩ := a
  unfold JSTypedArray.cell_address JSTypedArray.backing_address IntPtrAdd
  simp only
  generalize BitcastTaggedToWord buf.backing_store
    + ChangeUint32ToWord (TruncateTaggedToWord32 off) = B
  cases k
  case Float32 => cases hk
  case Float64 => cases hk
  case Uint8Clamped => cases hk
  all_goals
    simp only [ElementKind.offset, ElementKind.size, WordShl, ChangeUint32ToWord, pow_one]
    norm_num
    omega

theorem write_inv (context : Context) (mem mem' : Memory) (a : JSTypedArray)
    (index value : Tagged) (r : Number)
    (h : AtomicsStore context mem (.JSTypedArray a) index value = (.ok r, mem') ∨
      AtomicsExchange context mem (.JSTypedArray a) index value = (.ok r, mem')) :
    ∃ (q : Nat × Nat × Nat) (value_integer : Number),
      ValidateRequest context (.JSTypedArray a) index = .ok q ∧
      context.ToInteger value = .ok value_integer ∧
      mem' = mem.store (a.cell_address q.2.2) a.elements.size
        (TruncateTaggedToWord32 value_integer) := by
  cases hreq : ValidateRequest context (.JSTypedArray a) index with
  | error e =>
    obtain ⟨_, h2, h3⟩ := ValidateRequest_error context _ index e hreq mem value
    rw [h2, h3] at h
    simp at h
  | ok q =>
    rw [AtomicsStore_valid context mem a index value q hreq,
      AtomicsExchange_valid context mem a index value q hreq] at h
    cases hv : context.ToInteger value with
    | error e =>
      rw [hv] at h
      simp at h
    | ok value_integer =>
      rw [hv] at h
      simp only [Prod.mk.injEq, Except.ok.injEq] at h
      refine ⟨q, value_integer, rfl, rfl, ?_⟩
      rcases h with h | h
      · exact h.2.symm
      · exact h.2.symm

theorem cell_value_frame (a : JSTypedArray) (hk : a.elements.eligible = true) (mem : Memory)
    (w1 w2 value : Nat) (h1 : w1 < 4294967296) (h2 : w2 < 4294967296) (hne : w1 ≠ w2) :
    a.cell_value (mem.store (a.cell_address w1) a.elements.size value) w2
      = a.cell_value mem w2 := by
  have hload : (mem.store (a.cell_address w1) a.elements.size value).load (a.cell_address w2)
      a.elements.size = mem.load (a.cell_address w2) a.elements.size := by
    apply Memory.load_congr
    intro address ha1 ha2
    apply Memory.store_other
    rcases cells_disjoint a hk w1 w2 h1 h2 hne with hd | hd
    · right; omega
    · left; omega
  unfold JSTypedArray.cell_value AtomicLoad
  rw [machineType_size a.elements hk]
  have haddr : IntPtrAdd a.backing_address (a.elements.offset w2) = a.cell_address w2 := rfl
  rw [haddr, hload]

/-- C16: `AtomicsLoad` leaves the memory as it was, for every operand; a successful
`AtomicsStore` or `AtomicsExchange` at index `i` changes no byte outside the
`element_size` bytes of cell `i`; and so, for every other index `j ≠ i` of the same
view at which `AtomicsLoad` succeeds before the call, it returns the same value
after it. -/
theorem C16_only_the_cell_changes (context : Context) (a : JSTypedArray) :
    (∀ (m : Memory) (array index : Tagged), (AtomicsLoad context m array index).2 = m) ∧
    (∀ (mem mem' : Memory) (index_i value : Tagged) (r : Number),
      (AtomicsStore context mem (.JSTypedArray a) index_i value = (.ok r, mem') ∨
        AtomicsExchange context mem (.JSTypedArray a) index_i value = (.ok r, mem')) →
      (∃ (wi : Nat) (xi : Number),
        ConvertTaggedAtomicIndexToWord32 context index_i = .ok (wi, xi) ∧
        ∀ address : Nat,
          (address < a.cell_address wi ∨ a.cell_address wi + a.elements.size ≤ address) →
          mem' address = mem address) ∧
      (∀ (index_j : Tagged) (rj xi xj : Number) (i j : Int),
        context.ToNumber index_i = .ok xi → xi.WF → xi.IsInt i →
        context.ToNumber index_j = .ok xj → xj.WF → xj.IsInt j → j ≠ i →
        AtomicsLoad context mem (.JSTypedArray a) index_j = (.ok rj, mem) →
        AtomicsLoad context mem' (.JSTypedArray a) index_j = (.ok rj, mem'))) := by
  constructor
  · intro m array index
    cases hr : ValidateRequest context array index with
    | error e => rw [(ValidateRequest_error context array index e hr m array).1]
    | ok p =>
      obtain ⟨b, _, hb, _⟩ := ValidateRequest_inv context _ index p hr
      subst hb
      rw [AtomicsLoad_valid context m b index p hr]
  · intro mem mem' index_i value r hw
    obtain ⟨q, value_integer, hreq, _, hm⟩ := write_inv context mem mem' a index_i value r hw
    obtain ⟨a2, numi, ha, hs, hk, hci, hbi, _⟩ := ValidateRequest_inv context _ index_i q hreq
    cases ha
    constructor
    · refine ⟨q.2.2, numi, hci, ?_⟩
      intro address hout
      rw [hm]
      exact Memory.store_other mem _ _ _ address hout
    · intro index_j rj xi xj i j hxi hwfi hi hxj hwfj hj hne hload
      have hni : numi = xi := by
        have := Convert_number context index_i q.2.2 numi hci
        rw [hxi] at this
        simp only [Except.ok.injEq] at this
        exact this.symm
      subst hni
      cases hreqj : ValidateRequest context (.JSTypedArray a) index_j with
      | error e =>
        rw [(ValidateRequest_error context _ index_j e hreqj mem value).1] at hload
        simp at hload
      | ok p =>
        obtain ⟨a3, numj, ha3, _, _, hcj, _, _⟩ := ValidateRequest_inv context _ index_j p hreqj
        cases ha3
        have hnj : numj = xj := by
          have := Convert_number context index_j p.2.2 numj hcj
          rw [hxj] at this
          simp only [Except.ok.injEq] at this
          exact this.symm
        subst hnj
        obtain ⟨hwi, hii⟩ := Convert_word context index_i q.2.2 numi hwfi hci
        obtain ⟨hwj, hjj⟩ := Convert_word context index_j p.2.2 numj hwfj hcj
        have hwne : q.2.2 ≠ p.2.2 := by
          intro heq
          apply hne
          rw [Number_IsInt_unique numj j _ hj hjj, Number_IsInt_unique numi i _ hi hii, heq]
        rw [AtomicsLoad_valid context mem a index_j p hreqj] at hload
        simp only [Prod.mk.injEq, Except.ok.injEq, and_true] at hload
        rw [AtomicsLoad_valid context mem' a index_j p hreqj, hm,
          cell_value_frame a hk mem q.2.2 p.2.2 _ hwi hwj hwne, hload]

/-- Witness of C16: after `Store(view, 1, 300)` on the sample Int16 view, cell 2 still
loads as 0; and after `Store(view, 0, 300)` on a view of one element, whose cell is
the two bytes from address 4096, the byte at address 4098 is as before. -/
theorem C16_only_the_cell_changes_witness :
    AtomicsStore Context.sample zeroMemory int16View (.Smi 1) (.Smi 300)
      = (.ok (.Smi 300), mem300) ∧
    AtomicsLoad Context.sample zeroMemory int16View (.Smi 2) = (.ok (.Smi 0), zeroMemory) ∧
    AtomicsLoad Context.sample mem300 int16View (.Smi 2) = (.ok (.Smi 0), mem300) ∧
    AtomicsStore Context.sample zeroMemory oneElementView (.Smi 0) (.Smi 300)
      = (.ok (.Smi 300), memOneElement) ∧
    (∃ (wi : Nat) (xi : Number),
      ConvertTaggedAtomicIndexToWord32 Context.sample (.Smi 0) = .ok (wi, xi) ∧
      ∀ address : Nat,
        (address < JSTypedArray.cell_address ⟨sampleBuffer, .Int16, .Smi 0, .Smi 1⟩ wi ∨
          JSTypedArray.cell_address ⟨sampleBuffer, .Int16, .Smi 0, .Smi 1⟩ wi
            + ElementKind.Int16.size ≤ address) →
        memOneElement address = zeroMemory address) ∧
    memOneElement 4098 = zeroMemory 4098 :=
  ⟨Prod.ext (by decide) rfl, Prod.ext (by decide) rfl,
    ((C16_only_the_cell_changes Context.sample (sampleView .Int16)).2 zeroMemory mem300
      (.Smi 1) (.Smi 300) (.Smi 300) (Or.inl (Prod.ext (by decide) rfl))).2
      (.Smi 2) (.Smi 0) (.Smi 1) (.Smi 2) 1 2 rfl (by decide) rfl rfl (by decide) rfl
      (by decide) (Prod.ext (by decide) rfl),
    Prod.ext (by decide) rfl,
    ((C16_only_the_cell_changes Context.sample ⟨sampleBuffer, .Int16, .Smi 0, .Smi 1⟩).2
      zeroMemory memOneElement (.Smi 0) (.Smi 300) (.Smi 300)
      (Or.inl (Prod.ext (by decide) rfl))).1,
    by decide⟩

/-! ## Byte offsets -/

theorem TruncateTaggedToWord32_lt (x : Number) : TruncateTaggedToWord32 x < 4294967296 := by
  cases x with
  | Smi k => exact Word32_lt k
  | HeapNumber f =>
    show TruncateFloat64ToWord32 f < 4294967296
    unfold TruncateFloat64ToWord32
    split
    · decide
    · exact Word32_lt _

theorem offset_eq (k : ElementKind) (hk : k.eligible = true) (w : Nat) (hw : w < 4294967296) :
    k.size = 2 ^ k.shift ∧ k.offset w = w * 2 ^ k.shift ∧ k.offset w = w * k.size ∧
    w * k.size + k.size ≤ 18446744073709551616 := by
  cases k
  case Float32 => cases hk
  case Float64 => cases hk
  case Uint8Clamped => cases hk
  all_goals
    simp only [ElementKind.offset, ElementKind.size, ElementKind.shift, WordShl,
      ChangeUint32ToWord, pow_one, pow_zero]
    norm_num
    omega

/-- C17: for an eligible kind of element size `s` (1, 1, 2, 2, 4, 4 for Int8, Uint8,
Int16, Uint16, Int32, Uint32) and an index word `i` that passed the bounds check
against the length word `L`, the byte offset the typed branches of Load, Store and
Exchange use is `i` shifted left by `log2 s` (0, 1 or 2), which is `i * s` with no
overflow of the 64-bit word, and the bytes `[i*s, i*s + s)` lie inside `[0, L*s)`
counted from the backing address. -/
theorem C17_offset_inside_view (context : Context) (mem : Memory) (a : JSTypedArray)
    (index : Tagged) (q : Nat × Nat × Nat)
    (hreq : ValidateRequest context (.JSTypedArray a) index = .ok q) :
    (ElementKind.Int8.size = 1 ∧ ElementKind.Uint8.size = 1 ∧ ElementKind.Int16.size = 2 ∧
      ElementKind.Uint16.size = 2 ∧ ElementKind.Int32.size = 4 ∧ ElementKind.Uint32.size = 4) ∧
    (a.elements.shift = 0 ∨ a.elements.shift = 1 ∨ a.elements.shift = 2) ∧
    a.elements.size = 2 ^ a.elements.shift ∧
    a.elements.offset q.2.2 = q.2.2 * 2 ^ a.elements.shift ∧
    a.elements.offset q.2.2 = q.2.2 * a.elements.size ∧
    q.2.2 * a.elements.size < 18446744073709551616 ∧
    q.2.2 * a.elements.size + a.elements.size
      ≤ TruncateTaggedToWord32 a.length * a.elements.size ∧
    AtomicsLoad context mem (.JSTypedArray a) index =
      (.ok (a.elements.tag (AtomicLoad mem a.elements.machineType a.backing_address
        (q.2.2 * a.elements.size))), mem) ∧
    (∀ (value : Tagged) (value_integer : Number), context.ToInteger value = .ok value_integer →
      (AtomicsStore context mem (.JSTypedArray a) index value).2
        = mem.store (IntPtrAdd a.backing_address (q.2.2 * a.elements.size)) a.elements.size
          (TruncateTaggedToWord32 value_integer) ∧
      (AtomicsExchange context mem (.JSTypedArray a) index value).2
        = mem.store (IntPtrAdd a.backing_address (q.2.2 * a.elements.size)) a.elements.size
          (TruncateTaggedToWord32 value_integer)) := by
  obtain ⟨a2, num, ha, hs, hk, hc, hb, _⟩ := ValidateRequest_inv context _ index q hreq
  cases ha
  have hw := Convert_word_lt context index q.2.2 num hc
  have hL := TruncateTaggedToWord32_lt a.length
  obtain ⟨h1, h2, h3, h4⟩ := offset_eq a.elements hk q.2.2 hw
  have hlt : q.2.2 < TruncateTaggedToWord32 a.length := by
    unfold ValidateAtomicIndex Uint32LessThan at hb
    split at hb
    · rename_i hcmp
      simp only [decide_eq_true_eq] at hcmp
      omega
    · cases hb
  have hsz : 1 ≤ a.elements.size := by
    revert hk
    cases a.elements <;> decide
  refine ⟨⟨rfl, rfl, rfl, rfl, rfl, rfl⟩, ?_, h1, h2, h3, by omega, ?_, ?_, ?_⟩
  · revert hk
    cases a.elements <;> decide
  · have := Nat.mul_le_mul_right a.elements.size (Nat.succ_le_of_lt hlt)
    rw [Nat.succ_mul] at this
    exact this
  · rw [AtomicsLoad_valid context mem a index q hreq, ← h3]
    rfl
  · intro value value_integer hv
    rw [AtomicsStore_valid context mem a index value q hreq,
      AtomicsExchange_valid context mem a index value q hreq, hv, ← h3]
    exact ⟨rfl, rfl⟩

/-- Witness of C17: index 3 of the sample Int16 view of length 4 is accessed at byte
offset 6, and `6 + 2 ≤ 4 * 2`. -/
theorem C17_offset_inside_view_witness :
    ValidateRequest Context.sample int16View (.Smi 3) = .ok (FIXED_INT16_ARRAY_TYPE, 4104, 3) ∧
    ElementKind.Int16.offset 3 = 3 * ElementKind.Int16.size ∧
    3 * ElementKind.Int16.size + ElementKind.Int16.size
      ≤ TruncateTaggedToWord32 (sampleView .Int16).length * ElementKind.Int16.size :=
  have h := C17_offset_inside_view Context.sample zeroMemory (sampleView .Int16) (.Smi 3)
    (FIXED_INT16_ARRAY_TYPE, 4104, 3) (by decide)
  ⟨by decide, h.2.2.2.2.1, h.2.2.2.2.2.2.1⟩

/-! ## The byteLength getter -/

/-- C18: the getter of `SharedArrayBuffer.prototype.byteLength` returns the byte
length of the receiver if and only if the receiver is an array buffer that is
marked shared; for a receiver that is not an array buffer, and for an array buffer
that is not shared, it throws the incompatible-method-receiver TypeError and
returns no length. -/
theorem C18_byteLength_getter (receiver : Tagged) :
    (∀ b : JSArrayBuffer, receiver = .JSArrayBuffer b → b.is_shared = true →
      SharedArrayBufferPrototypeGetByteLength receiver = .ok b.byte_length) ∧
    (∀ n : Number, SharedArrayBufferPrototypeGetByteLength receiver = .ok n →
      ∃ b : JSArrayBuffer, receiver = .JSArrayBuffer b ∧ b.is_shared = true ∧
        n = b.byte_length) ∧
    ((∀ b : JSArrayBuffer, receiver ≠ .JSArrayBuffer b) →
      SharedArrayBufferPrototypeGetByteLength receiver = .error .kIncompatibleMethodReceiver) ∧
    (∀ b : JSArrayBuffer, receiver = .JSArrayBuffer b → b.is_shared = false →
      SharedArrayBufferPrototypeGetByteLength receiver = .error .kIncompatibleMethodReceiver) := by
  refine ⟨?_, ?_, ?_, ?_⟩
  · intro b hb hs
    subst hb
    simp [SharedArrayBufferPrototypeGetByteLength, CHECK_RECEIVER_JSArrayBuffer, hs]
  · intro n h
    cases receiver with
    | JSArrayBuffer b =>
      cases hs : b.is_shared
      · simp [SharedArrayBufferPrototypeGetByteLength, CHECK_RECEIVER_JSArrayBuffer, hs] at h
      · simp [SharedArrayBufferPrototypeGetByteLength, CHECK_RECEIVER_JSArrayBuffer, hs] at h
        exact ⟨b, rfl, hs, h.symm⟩
    | Smi k => simp [SharedArrayBufferPrototypeGetByteLength, CHECK_RECEIVER_JSArrayBuffer] at h
    | HeapNumber f =>
      simp [SharedArrayBufferPrototypeGetByteLength, CHECK_RECEIVER_JSArrayBuffer] at h
    | JSTypedArray t =>
      simp [SharedArrayBufferPrototypeGetByteLength, CHECK_RECEIVER_JSArrayBuffer] at h
    | HeapObject t ht =>
      simp [SharedArrayBufferPrototypeGetByteLength, CHECK_RECEIVER_JSArrayBuffer] at h
  · intro hno
    cases receiver with
    | JSArrayBuffer b => exact absurd rfl (hno b)
    | Smi k => rfl
    | HeapNumber f => rfl
    | JSTypedArray t => rfl
    | HeapObject t ht => rfl
  · intro b hb hs
    subst hb
    simp [SharedArrayBufferPrototypeGetByteLength, CHECK_RECEIVER_JSArrayBuffer, hs]

/-- Witness of C18: the shared sample buffer gives its byte length 64; the unshared
buffer, a typed array and a Smi are refused. -/
theorem C18_byteLength_getter_witness :
    SharedArrayBufferPrototypeGetByteLength (.JSArrayBuffer sampleBuffer) = .ok (.Smi 64) ∧
    SharedArrayBufferPrototypeGetByteLength (.JSArrayBuffer unsharedBuffer)
      = .error .kIncompatibleMethodReceiver ∧
    SharedArrayBufferPrototypeGetByteLength int16View = .error .kIncompatibleMethodReceiver ∧
    SharedArrayBufferPrototypeGetByteLength (.Smi 5) = .error .kIncompatibleMethodReceiver :=
  ⟨(C18_byteLength_getter (.JSArrayBuffer sampleBuffer)).1 sampleBuffer rfl rfl,
    (C18_byteLength_getter (.JSArrayBuffer unsharedBuffer)).2.2.2 unsharedBuffer rfl rfl,
    (C18_byteLength_getter int16View).2.2.1 (fun _ h => Tagged.noConfusion h),
    (C18_byteLength_getter (.Smi 5)).2.2.1 (fun _ h => Tagged.noConfusion h)⟩

end V8
